import Mathlib

/-!
Verification of the minesweeper board engine: data model, mine placement,
adjacency computation, flood reveal, win/loss detection, flag budget and
the tiered solver strategies, together with theorems checking the stated
properties of these operations.
-/

namespace Minesweeper

/-- Grid dimension, `GRID_SIZE = 10` in the source configuration. -/
abbrev GRID_SIZE : Nat := 10

/-- Board coordinate: row and column, each in `[0, GRID_SIZE)`. -/
abbrev Pos := Fin GRID_SIZE × Fin GRID_SIZE

/-- Gameplay state of one square (class `Cell`).  The pixel coordinates of
the source are presentation-only and omitted; `border` is the transient
highlight used to mark the last solver pick. -/
structure Cell where
  is_mine : Bool := false
  is_revealed : Bool := false
  is_flagged : Bool := false
  adjacent_mines : Nat := 0
  border : Bool := false
deriving DecidableEq

/-- Class `Board`: the grid of cells plus configuration and the last
solver-picked cell. -/
structure Board where
  grid : Pos → Cell
  num_mines : Nat
  last_cell : Option Pos

/-- The in-bounds check `0 <= r < GRID_SIZE and 0 <= c < GRID_SIZE` used
throughout the source, packaged as a partial conversion to `Pos`. -/
def toPos? (r c : Int) : Option Pos :=
  if h : 0 ≤ r ∧ r < GRID_SIZE ∧ 0 ≤ c ∧ c < GRID_SIZE then
    some (⟨r.toNat, by omega⟩, ⟨c.toNat, by omega⟩)
  else none

/-- The eight neighbor offsets `(r_offset, c_offset)` with `(0,0)` skipped,
in the iteration order of the source loops. -/
def offsets : List (Int × Int) :=
  [(-1,-1),(-1,0),(-1,1),(0,-1),(0,1),(1,-1),(1,0),(1,1)]

/-- The nine offsets (including `(0,0)`) used to build the first-click
safe zone in `place_mines`. -/
def safeOffsets : List (Int × Int) :=
  [(-1,-1),(-1,0),(-1,1),(0,-1),(0,0),(0,1),(1,-1),(1,0),(1,1)]

/-- Edge-clipped 8-neighborhood of a position, via raw integer
coordinates, mirroring the source's bounds-checked double loop. -/
def nbrsInt (r c : Int) : List Pos :=
  offsets.filterMap (fun d => toPos? (r + d.1) (c + d.2))

/-- Edge-clipped 8-neighborhood of an in-bounds position. -/
def nbrs (p : Pos) : List Pos :=
  nbrsInt (p.1 : Int) (p.2 : Int)

/-- The edge-clipped 3x3 safe zone around the first click, including the
clicked cell itself (`place_mines`). -/
def safeZone (p : Pos) : List Pos :=
  safeOffsets.filterMap (fun d => toPos? ((p.1 : Int) + d.1) ((p.2 : Int) + d.2))

/-- All 100 board positions, row-major, as iterated by the source's
double loops. -/
def allPosList : List Pos :=
  (List.finRange GRID_SIZE).flatMap (fun r => (List.finRange GRID_SIZE).map (fun c => (r, c)))

/-! ## Board operations -/

/-- Set `is_revealed := true` on one cell (the mutation in `reveal_cell`
and `reveal_all_mines`). -/
def setRev (c : Cell) : Cell := { c with is_revealed := true }

/-- Reveal a single cell in the grid. -/
def Board.setRevealed (b : Board) (p : Pos) : Board :=
  { b with grid := Function.update b.grid p (setRev (b.grid p)) }

/-- Set or clear the flag of one cell. -/
def Board.setFlagged (b : Board) (p : Pos) (v : Bool) : Board :=
  { b with grid := Function.update b.grid p { b.grid p with is_flagged := v } }

/-- Set or clear the highlight border of one cell. -/
def Board.setBorder (b : Board) (p : Pos) (v : Bool) : Board :=
  { b with grid := Function.update b.grid p { b.grid p with border := v } }

/-- Mark the sampled mine locations (`place_mines`, marking loop).  The
source iterates over the sampled list setting `is_mine = True`; the
result is order-independent, so it is rendered as a pointwise update. -/
def Board.setMines (b : Board) (mines : List Pos) : Board :=
  { b with grid := fun q => if q ∈ mines then { b.grid q with is_mine := true } else b.grid q }

/-- `count_adjacent_mines`: number of mines among the edge-clipped 8
neighbors. -/
def Board.count_adjacent_mines (b : Board) (p : Pos) : Nat :=
  (nbrs p).countP (fun q => (b.grid q).is_mine)

/-- `calculate_all_adjacent_mines`: cache the adjacent count on every
non-mine cell.  The counts read only `is_mine` fields, which the loop does
not modify, so the loop is order-independent and rendered pointwise. -/
def Board.calculate_all_adjacent_mines (b : Board) : Board :=
  { b with grid := fun p =>
      if (b.grid p).is_mine = true then b.grid p
      else { b.grid p with adjacent_mines := b.count_adjacent_mines p } }

/-- `place_mines`, given the list sampled by `random.sample` (the safe
zone and distinctness constraints on the sample are hypotheses of the
theorems). -/
def Board.place_mines (b : Board) (mines : List Pos) : Board :=
  (b.setMines mines).calculate_all_adjacent_mines

/-- `reveal_cell`, fuel-indexed: reveal a cell and recursively flood
adjacent cells when the revealed cell has no adjacent mines and is not a
mine.  Stops at already-revealed and flagged cells.  The fuel only bounds
the recursion depth; `Board.reveal_cell` supplies more fuel than the
recursion can ever consume. -/
def revealCell : Nat → Board → Pos → Board
  | 0, b, _ => b
  | fuel+1, b, p =>
    let cell := b.grid p
    if cell.is_revealed = true ∨ cell.is_flagged = true then b
    else
      let b1 := b.setRevealed p
      if cell.adjacent_mines = 0 ∧ cell.is_mine = false then
        (nbrs p).foldl (revealCell fuel) b1
      else b1

/-- `reveal_cell` with enough fuel: each nesting level of the source's
recursion first reveals a previously unrevealed cell, so the depth never
exceeds the cell count and `GRID_SIZE^2 + 1` fuel is never exhausted. -/
def Board.reveal_cell (b : Board) (p : Pos) : Board :=
  revealCell (GRID_SIZE * GRID_SIZE + 1) b p

/-- `reveal_all_mines`: show every mine (used on loss).  Flags are left
untouched. -/
def Board.reveal_all_mines (b : Board) : Board :=
  { b with grid := fun p => if (b.grid p).is_mine = true then setRev (b.grid p) else b.grid p }

/-- Number of mine cells on the board. -/
def Board.mineCount (b : Board) : Nat :=
  (Finset.univ.filter (fun p : Pos => (b.grid p).is_mine = true)).card

/-- Number of flagged cells on the board. -/
def Board.flaggedCount (b : Board) : Nat :=
  (Finset.univ.filter (fun p : Pos => (b.grid p).is_flagged = true)).card

/-- Number of revealed non-mine cells (the quantity of
`check_win_condition`). -/
def Board.revealedSafeCount (b : Board) : Nat :=
  (Finset.univ.filter (fun p : Pos =>
    (b.grid p).is_revealed = true ∧ (b.grid p).is_mine = false)).card

/-- Number of unrevealed cells (termination measure for the flood). -/
def Board.unrevealedCount (b : Board) : Nat :=
  (Finset.univ.filter (fun p : Pos => (b.grid p).is_revealed = false)).card

/-! ## Solver strategies

The strategies are random; the outcome of each call to `random.randint`
or `random.choice` is passed in as an explicit argument, with the
conditions the source's loops and candidate lists guarantee for it stated
as hypotheses in the theorems. -/

/-- The intended action of a solver pick (implicit in the source's
control flow: the medium flag branch flags its pick, every other branch
leads to a reveal). -/
inductive SolverAct
  | reveal
  | flag
deriving DecidableEq

/-- The border bookkeeping of the `wrap_uncover` decorator: clear the
previous highlight, highlight the chosen cell, record it as last cell. -/
def applyBorder (b : Board) (p : Pos) : Board :=
  let b0 := match b.last_cell with
    | some q => b.setBorder q false
    | none => b
  { b0.setBorder p true with last_cell := some p }

/-- The `wrap_uncover` decorator: run the wrapped strategy, update the
highlight, and — unless this is the very first pick — reveal the chosen
cell. -/
def wrapUncover (inner : Board → Pos × Board) (is_first : Bool) (b : Board) : Pos × Board :=
  let r := inner b
  let b1 := applyBorder r.2 r.1
  (r.1, if is_first then b1 else b1.reveal_cell r.1)

/-- `uncover_cell_easy`: the random pick loop retries until it hits a
cell that is neither revealed nor flagged; `pick` is that cell. -/
def Board.uncover_cell_easy (b : Board) (pick : Pos) (is_first : Bool) : Pos × Board :=
  wrapUncover (fun bb => (pick, bb)) is_first b

/-- Covered (unrevealed and unflagged) neighbors of a cell
(`uncover_cell_medium`). -/
def Board.coveredNeighbors (b : Board) (p : Pos) : List Pos :=
  (nbrs p).filter (fun q => !(b.grid q).is_revealed && !(b.grid q).is_flagged)

/-- Flagged neighbors of a cell (`uncover_cell_medium`). -/
def Board.flaggedNeighbors (b : Board) (p : Pos) : List Pos :=
  (nbrs p).filter (fun q => (b.grid q).is_flagged)

/-- One iteration of the medium strategy's constraint pass over a cell:
accumulates `(safe_cells, flag_cells)`. -/
def mediumStep (b : Board) (acc : Finset Pos × Finset Pos) (p : Pos) : Finset Pos × Finset Pos :=
  let cell := b.grid p
  if cell.is_revealed = true ∧ 0 < cell.adjacent_mines then
    let covered := b.coveredNeighbors p
    let flagged := b.flaggedNeighbors p
    let acc1 := if flagged.length = cell.adjacent_mines then (acc.1 ∪ covered.toFinset, acc.2) else acc
    if (covered.length : Int) = (cell.adjacent_mines : Int) - (flagged.length : Int) then
      (acc1.1, acc1.2 ∪ covered.toFinset)
    else acc1
  else acc

/-- The `(safe_cells, flag_cells)` sets built by `uncover_cell_medium`'s
single pass over the grid. -/
def Board.mediumSets (b : Board) : Finset Pos × Finset Pos :=
  allPosList.foldl (mediumStep b) (∅, ∅)

/-- The branch the medium strategy resolves to, with the action implicit
in the source's control flow made explicit: flag set first (action flag),
then safe set (action reveal), then the easy fallback (action reveal). -/
def Board.mediumChoice (b : Board) (cF cS cE : Pos) : Pos × SolverAct :=
  if (b.mediumSets).2.Nonempty then (cF, SolverAct.flag)
  else if (b.mediumSets).1.Nonempty then (cS, SolverAct.reveal)
  else (cE, SolverAct.reveal)

/-- `uncover_cell_medium`: single constraint pass; flags a deduced mine
directly (mutating the board inside the strategy), else returns a deduced
safe cell, else falls back to the (wrapped) easy pick called with
`is_first=True`.  `cF`, `cS`, `cE` are the outcomes of the three possible
`random.choice`/easy picks. -/
def Board.uncover_cell_medium (b : Board) (cF cS cE : Pos) (is_first : Bool) : Pos × Board :=
  wrapUncover (fun bb =>
    if (bb.mediumSets).2.Nonempty then (cF, bb.setFlagged cF true)
    else if (bb.mediumSets).1.Nonempty then (cS, bb)
    else bb.uncover_cell_easy cE true) is_first b

/-- Candidate cells of `uncover_cell_hard`: neither revealed nor flagged
nor (omnisciently) a mine. -/
def Board.hardCandidates (b : Board) : Finset Pos :=
  Finset.univ.filter (fun p : Pos =>
    (b.grid p).is_revealed = false ∧ (b.grid p).is_flagged = false ∧ (b.grid p).is_mine = false)

/-- `uncover_cell_hard`: `random.choice` over the candidate list. -/
def Board.uncover_cell_hard (b : Board) (pick : Pos) (is_first : Bool) : Pos × Board :=
  wrapUncover (fun bb => (pick, bb)) is_first b

/-! ## Game layer

`handle_events`, `update` and `check_win_condition` of class `Game`,
with the audio and drawing calls (presentation layer) omitted.  A solver
strategy, as installed on the board at construction, is modelled as a
function from `is_first` and the board to the picked cell and the
post-pick board. -/

/-- A (wrapped) solver strategy as stored in `Board.uncover_cell`. -/
abbrev Strategy := Bool → Board → Pos × Board

/-- Class `Game`: board plus session state.  `flags_placed` is an `Int`
because the Python counter can drift below zero when a solver-placed flag
(which does not increment it) is manually removed. -/
structure Game where
  board : Board
  game_over : Bool
  win : Bool
  first_click : Bool
  flags_placed : Int
  num_mines : Nat

/-- `check_win_condition`: win when every non-mine cell is revealed. -/
def Game.check_win_condition (g : Game) : Game :=
  if (g.board.revealedSafeCount : Int) = (GRID_SIZE * GRID_SIZE : Int) - (g.num_mines : Int) then
    { g with game_over := true, win := true }
  else g

/-- `Game.update`: run the win check only when the game is not over and
at least one reveal has occurred (`not self.first_click`). -/
def Game.update (g : Game) : Game :=
  if g.game_over = false ∧ g.first_click = false then g.check_win_condition else g

/-- The right-click flag toggle (`handle_events`, button 3 branch,
before the solver follow-up): flag if unflagged and the budget allows,
unflag if flagged, otherwise do nothing. -/
def Game.toggle_flag (g : Game) (p : Pos) : Game :=
  if (g.board.grid p).is_revealed = true then g
  else if (g.board.grid p).is_flagged = false ∧ g.flags_placed < (g.num_mines : Int) then
    { g with board := g.board.setFlagged p true, flags_placed := g.flags_placed + 1 }
  else if (g.board.grid p).is_flagged = true then
    { g with board := g.board.setFlagged p false, flags_placed := g.flags_placed - 1 }
  else g

/-- The loss bookkeeping shared by all branches: if the cell just acted
on is an unflagged mine, end the game and reveal every mine. -/
def Game.loseCheck (g : Game) (p : Pos) : Game :=
  if (g.board.grid p).is_mine = true ∧ (g.board.grid p).is_flagged = false then
    { g with game_over := true, win := false, board := g.board.reveal_all_mines }
  else g

/-- `handle_events`, right-click branch on an in-bounds cell: toggle the
flag, then let the solver take an immediate follow-up action
(`uncover_cell()` with `is_first` defaulted to `False`), then check the
solver's cell for a loss. -/
def Game.rightClick (strat : Strategy) (g : Game) (p : Pos) : Game :=
  if g.game_over = true then g
  else if (g.board.grid p).is_revealed = true then g
  else
    let g1 := g.toggle_flag p
    let r := strat false g1.board
    Game.loseCheck { g1 with board := r.2 } r.1

/-- `handle_events`, left-click branch on an in-bounds, unflagged cell:
on the first click place the mines (seeded at the clicked cell), then
reveal; on a mine, lose and return; otherwise let the solver take an
immediate follow-up action and check its cell for a loss. -/
def Game.leftClick (strat : Strategy) (g : Game) (p : Pos) (mines : List Pos) : Game :=
  if g.game_over = true then g
  else if (g.board.grid p).is_flagged = true then g
  else
    let g1 := if g.first_click then
        { g with board := g.board.place_mines mines, first_click := false }
      else g
    let b2 := g1.board.reveal_cell p
    if (b2.grid p).is_mine = true then
      { g1 with game_over := true, win := false, board := b2.reveal_all_mines }
    else
      let r := strat false b2
      Game.loseCheck { g1 with board := r.2 } r.1

/-- `handle_events`, solver-timer branch (`AUTO_PICK`): ask the strategy
for a pick (passing `is_first`), on the first pick place the mines seeded
at the picked cell and reveal it, then check the picked cell for a
loss. -/
def Game.aiTick (strat : Strategy) (g : Game) (mines : List Pos) : Game :=
  if g.game_over = true then g
  else
    let r := strat g.first_click g.board
    let g1 := { g with board := r.2 }
    let g2 := if g.first_click then
        { g1 with board := (g1.board.place_mines mines).reveal_cell r.1, first_click := false }
      else g1
    Game.loseCheck g2 r.1

/-! ## Python list indexing (out-of-bounds behavior of `reveal_cell`)

`reveal_cell` is called by the presentation layer with pre-validated
coordinates, but as an API it accepts arbitrary integers, which Python
list indexing resolves with wrap-around for `-len <= i < 0` and an
`IndexError` otherwise. -/

/-- Python list indexing on a list of length `GRID_SIZE`: `none` is an
`IndexError`. -/
def pyIndex (i : Int) : Option (Fin GRID_SIZE) :=
  if h : 0 ≤ i ∧ i < GRID_SIZE then some ⟨i.toNat, by omega⟩
  else if h2 : -(GRID_SIZE : Int) ≤ i ∧ i < 0 then some ⟨(i + GRID_SIZE).toNat, by omega⟩
  else none

/-- `reveal_cell(row, col)` on raw integer coordinates: the initial
`self.grid[row][col]` access uses Python indexing, while the flood
recursion computes neighbors from the raw `row`, `col` with an explicit
bounds check (so its own recursive calls are always in bounds). -/
def Board.reveal_cell_py (b : Board) (row col : Int) : Option Board :=
  match pyIndex row, pyIndex col with
  | some r, some c =>
    let p : Pos := (r, c)
    let cell := b.grid p
    if cell.is_revealed = true ∨ cell.is_flagged = true then some b
    else
      let b1 := b.setRevealed p
      some (if cell.adjacent_mines = 0 ∧ cell.is_mine = false then
        (nbrsInt row col).foldl (revealCell (GRID_SIZE * GRID_SIZE)) b1
      else b1)
  | _, _ => none

/-! ## Relations used to specify the flood reveal -/

/-- `RevExt b b'`: the grid of `b'` agrees with that of `b` except that
some cells may additionally be revealed.  Every step of the flood
produces an extension of its input board. -/
def RevExt (b b' : Board) : Prop :=
  ∀ q, b'.grid q = b.grid q ∨ b'.grid q = setRev (b.grid q)

/-- `floodEdge b x y` holds when, in board `b`, the flood can propagate
from `x` to `y`: `x` is coverable (unrevealed, unflagged) and expands
(zero adjacent count, not a mine), `y` is an in-bounds neighbor of `x`,
and `y` is itself unrevealed and unflagged.  The revealed set of the
flood is the reflexive-transitive closure of this relation from the
clicked cell. -/
def floodEdge (b : Board) (x y : Pos) : Prop :=
  (b.grid x).is_revealed = false ∧ (b.grid x).is_flagged = false ∧
  (b.grid x).adjacent_mines = 0 ∧ (b.grid x).is_mine = false ∧
  y ∈ nbrs x ∧ (b.grid y).is_revealed = false ∧ (b.grid y).is_flagged = false

/-- `RevClosed b0 b'`: every cell newly revealed between `b0` and `b'`
that expands (zero count, not a mine) has all its unflagged neighbors
revealed in `b'`. -/
def RevClosed (b0 b' : Board) : Prop :=
  ∀ x, (b0.grid x).is_revealed = false → (b'.grid x).is_revealed = true →
    (b0.grid x).adjacent_mines = 0 → (b0.grid x).is_mine = false →
    ∀ y ∈ nbrs x, (b0.grid y).is_flagged = false → (b'.grid y).is_revealed = true

/-- The mutual-exclusion invariant of the specification: no cell is both
revealed and flagged. -/
def MutexInv (b : Board) : Prop :=
  ∀ p, ¬((b.grid p).is_revealed = true ∧ (b.grid p).is_flagged = true)

/-! ## Concrete fixtures for witnesses and counterexamples -/

/-- A fresh board as built by the `Board` constructor: all cells covered,
no mines, no flags, zero counts. -/
def freshBoard : Board :=
  { grid := fun _ => {}, num_mines := 10, last_cell := none }

/-- A fresh game as built by `reset_game`. -/
def freshGame : Game :=
  { board := freshBoard, game_over := false, win := false, first_click := true,
    flags_placed := 0, num_mines := 10 }

/-- The easy strategy with its random pick landing on `(5,5)` (a legal
outcome of the retry loop on any board where `(5,5)` is covered and
unflagged). -/
def easyStrat55 : Strategy :=
  fun is_first b => b.uncover_cell_easy ((5 : Fin GRID_SIZE), (5 : Fin GRID_SIZE)) is_first

/-- A concrete `random.sample` outcome for the C1 witness: ten distinct
cells, all outside the safe zone of a first click at `(0,0)`. -/
def wMines : List Pos :=
  [(3,0),(3,2),(3,4),(3,6),(3,8),(5,0),(5,2),(5,4),(5,6),(5,8)]

/-- Counterexample board for the literal reading of the flood-closure
claim: ten mines on row 9 with correct adjacent counts everywhere, all
cells revealed except `(0,0)` (covered), `(0,1)` (covered and flagged)
and the mines.  The connected zero-count region containing `(0,0)`
includes `(0,1)`, but the flag blocks the flood. -/
def cx2Grid (p : Pos) : Cell :=
  if p.1.val = 9 then { is_mine := true }
  else if p.1.val = 8 then
    { is_revealed := true, adjacent_mines := if p.2.val = 0 ∨ p.2.val = 9 then 2 else 3 }
  else if p.1.val = 0 ∧ p.2.val = 0 then {}
  else if p.1.val = 0 ∧ p.2.val = 1 then { is_flagged := true }
  else { is_revealed := true }

def cx2B : Board := { grid := cx2Grid, num_mines := 10, last_cell := none }

/-- The clicked cell `(0,0)` of the C2 scenarios. -/
def cxP : Pos := ((0 : Fin GRID_SIZE), (0 : Fin GRID_SIZE))

/-- The flagged zero-count neighbor `(0,1)` of the C2 counterexample. -/
def cxQ : Pos := ((0 : Fin GRID_SIZE), (1 : Fin GRID_SIZE))

/-- C3 witness board: ten mines on row 9 (covered), every non-mine cell
revealed, adjacent counts correct. -/
def wC3Grid (p : Pos) : Cell :=
  if p.1.val = 9 then { is_mine := true }
  else if p.1.val = 8 then
    { is_revealed := true, adjacent_mines := if p.2.val = 0 ∨ p.2.val = 9 then 2 else 3 }
  else { is_revealed := true }

def wC3win : Game :=
  { board := { grid := wC3Grid, num_mines := 10, last_cell := none },
    game_over := false, win := false, first_click := false, flags_placed := 0, num_mines := 10 }

/-- Same board with only 89 of the 90 non-mine cells revealed (corner
cell `(0,0)` still covered). -/
def wC3Grid89 (p : Pos) : Cell :=
  if p.1.val = 0 ∧ p.2.val = 0 then {} else wC3Grid p

def wC3g89 : Game :=
  { board := { grid := wC3Grid89, num_mines := 10, last_cell := none },
    game_over := false, win := false, first_click := false, flags_placed := 0, num_mines := 10 }

/-- The solver pick `(5,5)` of the C4 scenario. -/
def c55 : Pos := ((5 : Fin GRID_SIZE), (5 : Fin GRID_SIZE))

/-- The single-cell constraint that puts `q` into the medium strategy's
safe set via the revealed numbered cell `p`: all of `p`'s mines are
accounted for by flags. -/
def condSafe (b : Board) (p q : Pos) : Prop :=
  (b.grid p).is_revealed = true ∧ 0 < (b.grid p).adjacent_mines ∧
  (b.flaggedNeighbors p).length = (b.grid p).adjacent_mines ∧
  q ∈ b.coveredNeighbors p

/-- The single-cell constraint that puts `q` into the medium strategy's
flag set via the revealed numbered cell `p`: the covered neighbors are
exactly the missing mines (integer subtraction, as in the source). -/
def condFlag (b : Board) (p q : Pos) : Prop :=
  (b.grid p).is_revealed = true ∧ 0 < (b.grid p).adjacent_mines ∧
  ((b.coveredNeighbors p).length : Int)
    = ((b.grid p).adjacent_mines : Int) - ((b.flaggedNeighbors p).length : Int) ∧
  q ∈ b.coveredNeighbors p

/-- C6 counterexample board: the `wC3Grid` end-position with the mine at
`(9,0)` (wrongly or rightly) flagged.  Mutual exclusion holds, until
`reveal_all_mines` reveals the flagged mine without clearing its flag. -/
def cx6Grid (p : Pos) : Cell :=
  if p.1.val = 9 ∧ p.2.val = 0 then { is_mine := true, is_flagged := true }
  else wC3Grid p

def cx6B : Board := { grid := cx6Grid, num_mines := 10, last_cell := none }

/-- The flagged mine `(9,0)` of the C6 counterexample. -/
def cx6P : Pos := ((9 : Fin GRID_SIZE), (0 : Fin GRID_SIZE))

/-- C7 witness: a pre-first-click game with the full flag budget (ten
flags, row 7) already spent and the counter in sync. -/
def wC7Grid (p : Pos) : Cell :=
  if p.1.val = 7 then { is_flagged := true } else {}

def wC7g : Game :=
  { board := { grid := wC7Grid, num_mines := 10, last_cell := none },
    game_over := false, win := false, first_click := true, flags_placed := 10, num_mines := 10 }

/-- C7 counterexample board: ten (wrong) flags on row 7, ten mines
(`(1,1)` and row 9 columns 0 to 8), correct adjacent counts, and revealed
"1" cells around `(1,1)` that force the medium solver's flag deduction
although the flag budget is exhausted. -/
def cx7Grid (p : Pos) : Cell :=
  if p.1.val = 9 then
    (if p.2.val = 9 then { is_revealed := true, adjacent_mines := 1 } else { is_mine := true })
  else if p.1.val = 8 then
    { is_revealed := true,
      adjacent_mines :=
        if p.2.val = 9 then 1 else if p.2.val = 0 ∨ p.2.val = 8 then 2 else 3 }
  else if p.1.val = 7 then { is_flagged := true }
  else if p.1.val = 1 ∧ p.2.val = 1 then { is_mine := true }
  else if p.1.val ≤ 2 ∧ p.2.val ≤ 2 then { is_revealed := true, adjacent_mines := 1 }
  else { is_revealed := true }

def cx7B : Board := { grid := cx7Grid, num_mines := 10, last_cell := none }

/-- The covered mine `(1,1)` the medium solver deduces and flags in the
C7 counterexample. -/
def cx7Pick : Pos := ((1 : Fin GRID_SIZE), (1 : Fin GRID_SIZE))

/-- C8 counterexample board: a fresh board with the ten `wMines` placed.
The cell `(3,3)` is covered and numbered (two adjacent mines). -/
def cx8B : Board := freshBoard.place_mines wMines

/-- The covered numbered cell `(3,3)` of the C8 counterexample. -/
def c33 : Pos := ((3 : Fin GRID_SIZE), (3 : Fin GRID_SIZE))

/-- Mines for the C10 counterexample board, with a mine at `(8,1)` so
that `(9,0)` is a numbered cell (no flood). -/
def wMines10 : List Pos :=
  [(8,1),(8,3),(8,5),(8,7),(6,0),(6,2),(6,4),(6,6),(6,8),(4,0)]

/-- C10 counterexample board. -/
def cx10B : Board := freshBoard.place_mines wMines10

/-- The last-row cell `(9,0)` that `reveal_cell(-1, 0)` silently
operates on through Python's negative indexing. -/
def p90 : Pos := ((9 : Fin GRID_SIZE), (0 : Fin GRID_SIZE))

/-- A terminal game state (a loss) used to witness the terminal freeze. -/
def wTerminalGame : Game :=
  { board := freshBoard, game_over := true, win := false, first_click := false,
    flags_placed := 0, num_mines := 10 }

/-- A trivial strategy stub for witnesses whose conclusion does not
depend on the strategy (the terminal guard fires before any pick). -/
def idStrat : Strategy := fun _ b => (cxP, b)

/-! ## Basic cell and grid lemmas -/

theorem mem_allPosList (p : Pos) : p ∈ allPosList := by
  obtain ⟨r, c⟩ := p
  simp [allPosList]

@[simp] theorem setRev_is_mine (c : Cell) : (setRev c).is_mine = c.is_mine := rfl

@[simp] theorem setRev_is_flagged (c : Cell) : (setRev c).is_flagged = c.is_flagged := rfl

@[simp] theorem setRev_adjacent_mines (c : Cell) : (setRev c).adjacent_mines = c.adjacent_mines := rfl

@[simp] theorem setRev_border (c : Cell) : (setRev c).border = c.border := rfl

@[simp] theorem setRev_is_revealed (c : Cell) : (setRev c).is_revealed = true := rfl

theorem setRev_setRev (c : Cell) : setRev (setRev c) = setRev c := rfl

theorem setRev_eq_self {c : Cell} (h : c.is_revealed = true) : setRev c = c := by
  cases c
  simp_all [setRev]

@[simp] theorem setRevealed_grid_same (b : Board) (p : Pos) :
    (b.setRevealed p).grid p = setRev (b.grid p) := by
  simp [Board.setRevealed]

theorem setRevealed_grid_ne (b : Board) {p q : Pos} (h : q ≠ p) :
    (b.setRevealed p).grid q = b.grid q := by
  simp [Board.setRevealed, Function.update_noteq h]

/-! ## Reveal extension lemmas -/

theorem RevExt.refl (b : Board) : RevExt b b := fun _ => Or.inl (Eq.refl _)

theorem RevExt.trans {a b c : Board} (h1 : RevExt a b) (h2 : RevExt b c) : RevExt a c := by
  intro q
  rcases h2 q with h | h <;> rcases h1 q with h' | h' <;> rw [h, h']
  · exact Or.inl rfl
  · exact Or.inr rfl
  · exact Or.inr rfl
  · exact Or.inr (setRev_setRev _)

theorem RevExt.mine_eq {b b' : Board} (h : RevExt b b') (q : Pos) :
    (b'.grid q).is_mine = (b.grid q).is_mine := by
  rcases h q with e | e <;> simp [e]

theorem RevExt.flag_eq {b b' : Board} (h : RevExt b b') (q : Pos) :
    (b'.grid q).is_flagged = (b.grid q).is_flagged := by
  rcases h q with e | e <;> simp [e]

theorem RevExt.adj_eq {b b' : Board} (h : RevExt b b') (q : Pos) :
    (b'.grid q).adjacent_mines = (b.grid q).adjacent_mines := by
  rcases h q with e | e <;> simp [e]

theorem RevExt.border_eq {b b' : Board} (h : RevExt b b') (q : Pos) :
    (b'.grid q).border = (b.grid q).border := by
  rcases h q with e | e <;> simp [e]

theorem RevExt.rev_mono {b b' : Board} (h : RevExt b b') {q : Pos}
    (hq : (b.grid q).is_revealed = true) : (b'.grid q).is_revealed = true := by
  rcases h q with e | e <;> rw [e]
  · exact hq
  · rfl

theorem RevExt.rev_anti {b b' : Board} (h : RevExt b b') {q : Pos}
    (hq : (b'.grid q).is_revealed = false) : (b.grid q).is_revealed = false := by
  cases hb : (b.grid q).is_revealed
  · rfl
  · rw [h.rev_mono hb] at hq
    exact hq

theorem revExt_setRevealed (b : Board) (p : Pos) : RevExt b (b.setRevealed p) := by
  intro q
  by_cases hq : q = p
  · subst hq
    exact Or.inr (setRevealed_grid_same b q)
  · exact Or.inl (setRevealed_grid_ne b hq)

theorem revExt_foldl {f : Board → Pos → Board} (hf : ∀ bb q, RevExt bb (f bb q)) :
    ∀ (l : List Pos) (b : Board), RevExt b (l.foldl f b) := by
  intro l
  induction l with
  | nil => intro b; exact RevExt.refl b
  | cons a l ihl =>
    intro b
    rw [List.foldl_cons]
    exact (hf b a).trans (ihl (f b a))

theorem revExt_revealCell : ∀ (fuel : Nat) (b : Board) (p : Pos),
    RevExt b (revealCell fuel b p) := by
  intro fuel
  induction fuel with
  | zero => intro b p; exact RevExt.refl b
  | succ fuel ihf =>
    intro b p
    simp only [revealCell]
    split
    · exact RevExt.refl b
    · split
      · exact (revExt_setRevealed b p).trans (revExt_foldl (fun bb q => ihf bb q) _ _)
      · exact revExt_setRevealed b p

/-! ## The unrevealed-cell count, the termination measure of the flood -/

theorem unrevealedCount_mono {b b' : Board} (h : RevExt b b') :
    b'.unrevealedCount ≤ b.unrevealedCount := by
  apply Finset.card_le_card
  intro q hq
  simp only [Board.unrevealedCount, Finset.mem_filter, Finset.mem_univ, true_and] at *
  exact h.rev_anti hq

theorem pos_unrevealedCount (b : Board) (p : Pos) (hp : (b.grid p).is_revealed = false) :
    0 < b.unrevealedCount :=
  Finset.card_pos.mpr ⟨p, by simp [Board.unrevealedCount, hp]⟩

theorem unrevealedCount_setRevealed {b : Board} {p : Pos}
    (hp : (b.grid p).is_revealed = false) :
    (b.setRevealed p).unrevealedCount < b.unrevealedCount := by
  apply Finset.card_lt_card
  rw [Finset.ssubset_iff_of_subset]
  · refine ⟨p, ?_, ?_⟩
    · simp [Board.unrevealedCount, hp]
    · simp [Board.unrevealedCount]
  · intro q hq
    simp only [Board.unrevealedCount, Finset.mem_filter, Finset.mem_univ, true_and] at *
    exact (revExt_setRevealed b p).rev_anti hq

theorem unrevealedCount_le (b : Board) : b.unrevealedCount ≤ GRID_SIZE * GRID_SIZE := by
  have h := Finset.card_filter_le (Finset.univ : Finset Pos)
    (fun p => (b.grid p).is_revealed = false)
  simpa [Finset.card_univ] using h

/-! ## Flood edge lemmas -/

theorem floodEdge_weaken {b bb : Board} (h : RevExt b bb) {x y : Pos}
    (he : floodEdge bb x y) : floodEdge b x y := by
  obtain ⟨h1, h2, h3, h4, h5, h6, h7⟩ := he
  exact ⟨h.rev_anti h1, h.flag_eq x ▸ h2, h.adj_eq x ▸ h3, h.mine_eq x ▸ h4, h5,
    h.rev_anti h6, h.flag_eq y ▸ h7⟩

/-! ## Soundness: every cell the flood reveals is reachable -/

theorem revealCell_sound_aux (fuel : Nat)
    (IH : ∀ (b : Board) (p x : Pos), ((revealCell fuel b p).grid x).is_revealed = true →
      (b.grid x).is_revealed = true ∨
        ((b.grid p).is_revealed = false ∧ (b.grid p).is_flagged = false ∧
          Relation.ReflTransGen (floodEdge b) p x))
    (b : Board) (p : Pos)
    (hrev : (b.grid p).is_revealed = false) (hflag : (b.grid p).is_flagged = false)
    (hadj : (b.grid p).adjacent_mines = 0) (hmine : (b.grid p).is_mine = false) :
    ∀ (l : List Pos), (∀ q ∈ l, q ∈ nbrs p) → ∀ (bb : Board), RevExt b bb →
      (∀ x, (bb.grid x).is_revealed = true →
        (b.grid x).is_revealed = true ∨ Relation.ReflTransGen (floodEdge b) p x) →
      ∀ x, ((l.foldl (revealCell fuel) bb).grid x).is_revealed = true →
        (b.grid x).is_revealed = true ∨ Relation.ReflTransGen (floodEdge b) p x := by
  intro l
  induction l with
  | nil =>
    intro _ bb _ hinv x hx
    exact hinv x hx
  | cons a l ihl =>
    intro hl bb hext hinv x hx
    rw [List.foldl_cons] at hx
    refine ihl (fun q hq => hl q (List.mem_cons_of_mem a hq)) (revealCell fuel bb a)
      (hext.trans (revExt_revealCell fuel bb a)) ?_ x hx
    intro y hy
    rcases IH bb a y hy with h | ⟨ha1, ha2, hpath⟩
    · exact hinv y h
    · have ha1b : (b.grid a).is_revealed = false := hext.rev_anti ha1
      have ha2b : (b.grid a).is_flagged = false := hext.flag_eq a ▸ ha2
      have hedge : floodEdge b p a :=
        ⟨hrev, hflag, hadj, hmine, hl a (List.mem_cons_self a l), ha1b, ha2b⟩
      have hlift : Relation.ReflTransGen (floodEdge b) a y :=
        Relation.ReflTransGen.mono (fun u v huv => floodEdge_weaken hext huv) hpath
      exact Or.inr (Relation.ReflTransGen.head hedge hlift)

theorem revealCell_sound : ∀ (fuel : Nat) (b : Board) (p x : Pos),
    ((revealCell fuel b p).grid x).is_revealed = true →
    (b.grid x).is_revealed = true ∨
      ((b.grid p).is_revealed = false ∧ (b.grid p).is_flagged = false ∧
        Relation.ReflTransGen (floodEdge b) p x) := by
  intro fuel
  induction fuel with
  | zero =>
    intro b p x hx
    exact Or.inl hx
  | succ fuel ihf =>
    intro b p x hx
    simp only [revealCell] at hx
    by_cases hguard : (b.grid p).is_revealed = true ∨ (b.grid p).is_flagged = true
    · rw [if_pos hguard] at hx
      exact Or.inl hx
    · rw [if_neg hguard] at hx
      simp only [not_or, Bool.not_eq_true] at hguard
      obtain ⟨hrev, hflag⟩ := hguard
      by_cases hzero : (b.grid p).adjacent_mines = 0 ∧ (b.grid p).is_mine = false
      · rw [if_pos hzero] at hx
        have hstart : ∀ y, ((b.setRevealed p).grid y).is_revealed = true →
            (b.grid y).is_revealed = true ∨ Relation.ReflTransGen (floodEdge b) p y := by
          intro y hy
          by_cases hyp : y = p
          · subst hyp
            exact Or.inr Relation.ReflTransGen.refl
          · rw [setRevealed_grid_ne b hyp] at hy
            exact Or.inl hy
        rcases revealCell_sound_aux fuel ihf b p hrev hflag hzero.1 hzero.2 (nbrs p)
          (fun q hq => hq) (b.setRevealed p) (revExt_setRevealed b p) hstart x hx with h | h
        · exact Or.inl h
        · exact Or.inr ⟨hrev, hflag, h⟩
      · rw [if_neg hzero] at hx
        by_cases hxp : x = p
        · subst hxp
          exact Or.inr ⟨hrev, hflag, Relation.ReflTransGen.refl⟩
        · rw [setRevealed_grid_ne b hxp] at hx
          exact Or.inl hx

/-! ## Completeness: the flood reveals the whole reachable set -/

theorem revealCell_target : ∀ (fuel : Nat) (b : Board) (p : Pos),
    b.unrevealedCount ≤ fuel →
    (b.grid p).is_revealed = false → (b.grid p).is_flagged = false →
    ((revealCell fuel b p).grid p).is_revealed = true := by
  intro fuel
  cases fuel with
  | zero =>
    intro b p hc hp _
    have := pos_unrevealedCount b p hp
    omega
  | succ fuel =>
    intro b p _ hp hf
    simp only [revealCell]
    rw [if_neg (by simp [hp, hf])]
    by_cases hzero : (b.grid p).adjacent_mines = 0 ∧ (b.grid p).is_mine = false
    · rw [if_pos hzero]
      exact (revExt_foldl (fun bb q => revExt_revealCell fuel bb q) _ _).rev_mono
        (by simp)
    · rw [if_neg hzero]
      simp

theorem fold_covers (fuel : Nat) (b1 : Board) :
    ∀ (l : List Pos) (bb : Board), RevExt b1 bb → bb.unrevealedCount ≤ fuel →
      ∀ q ∈ l, (b1.grid q).is_flagged = false →
        ((l.foldl (revealCell fuel) bb).grid q).is_revealed = true := by
  intro l
  induction l with
  | nil =>
    intro bb _ _ q hq
    exact absurd hq (List.not_mem_nil q)
  | cons a l ihl =>
    intro bb hext hfc q hq hflag
    rw [List.foldl_cons]
    rcases List.mem_cons.mp hq with rfl | hq'
    · have hrevd : ((revealCell fuel bb q).grid q).is_revealed = true := by
        cases ha : (bb.grid q).is_revealed
        · exact revealCell_target fuel bb q hfc ha (by rw [hext.flag_eq q]; exact hflag)
        · exact (revExt_revealCell fuel bb q).rev_mono ha
      exact (revExt_foldl (fun c r => revExt_revealCell fuel c r) l _).rev_mono hrevd
    · exact ihl (revealCell fuel bb a) (hext.trans (revExt_revealCell fuel bb a))
        (le_trans (unrevealedCount_mono (revExt_revealCell fuel bb a)) hfc) q hq' hflag

theorem revClosed_self (b : Board) : RevClosed b b := by
  intro x hx0 hx1
  rw [hx0] at hx1
  exact absurd hx1 (by simp)

theorem revClosed_comp {b0 b1 b2 : Board} (h01 : RevExt b0 b1) (_h12 : RevExt b1 b2)
    (c01 : RevClosed b0 b1) (c12 : RevClosed b1 b2) : RevClosed b0 b2 := by
  intro x hx0 hx2 hadj hmine y hy hyflag
  cases hx1 : (b1.grid x).is_revealed
  · refine c12 x hx1 hx2 ?_ ?_ y hy ?_
    · rw [h01.adj_eq x]
      exact hadj
    · rw [h01.mine_eq x]
      exact hmine
    · rw [h01.flag_eq y]
      exact hyflag
  · exact _h12.rev_mono (c01 x hx0 hx1 hadj hmine y hy hyflag)

theorem fold_closed (fuel : Nat)
    (IH : ∀ (b : Board) (p : Pos), b.unrevealedCount ≤ fuel → RevClosed b (revealCell fuel b p))
    (b1 : Board) :
    ∀ (l : List Pos) (bb : Board), RevExt b1 bb → bb.unrevealedCount ≤ fuel →
      RevClosed b1 bb → RevClosed b1 (l.foldl (revealCell fuel) bb) := by
  intro l
  induction l with
  | nil =>
    intro bb _ _ hc
    exact hc
  | cons a l ihl =>
    intro bb hext hfc hc
    rw [List.foldl_cons]
    exact ihl (revealCell fuel bb a) (hext.trans (revExt_revealCell fuel bb a))
      (le_trans (unrevealedCount_mono (revExt_revealCell fuel bb a)) hfc)
      (revClosed_comp hext (revExt_revealCell fuel bb a) hc (IH bb a hfc))

theorem revealCell_closed : ∀ (fuel : Nat) (b : Board) (p : Pos),
    b.unrevealedCount ≤ fuel → RevClosed b (revealCell fuel b p) := by
  intro fuel
  induction fuel with
  | zero =>
    intro b p _
    exact revClosed_self b
  | succ fuel ihf =>
    intro b p hfc
    simp only [revealCell]
    by_cases hguard : (b.grid p).is_revealed = true ∨ (b.grid p).is_flagged = true
    · rw [if_pos hguard]
      exact revClosed_self b
    · rw [if_neg hguard]
      simp only [not_or, Bool.not_eq_true] at hguard
      obtain ⟨hrev, _hflag⟩ := hguard
      have hcount : (b.setRevealed p).unrevealedCount ≤ fuel := by
        have h1 := unrevealedCount_setRevealed (b := b) (p := p) hrev
        omega
      by_cases hzero : (b.grid p).adjacent_mines = 0 ∧ (b.grid p).is_mine = false
      · rw [if_pos hzero]
        intro x hx0 hx2 hadj hmine y hy hyflag
        by_cases hxp : x = p
        · subst hxp
          refine fold_covers fuel (b.setRevealed x) (nbrs x) (b.setRevealed x)
            (RevExt.refl _) hcount y hy ?_
          rw [(revExt_setRevealed b x).flag_eq y]
          exact hyflag
        · have hcl : RevClosed (b.setRevealed p)
              ((nbrs p).foldl (revealCell fuel) (b.setRevealed p)) :=
            fold_closed fuel ihf (b.setRevealed p) (nbrs p) (b.setRevealed p)
              (RevExt.refl _) hcount (revClosed_self _)
          refine hcl x ?_ hx2 ?_ ?_ y hy ?_
          · rw [setRevealed_grid_ne b hxp]
            exact hx0
          · rw [setRevealed_grid_ne b hxp]
            exact hadj
          · rw [setRevealed_grid_ne b hxp]
            exact hmine
          · rw [(revExt_setRevealed b p).flag_eq y]
            exact hyflag
      · rw [if_neg hzero]
        intro x hx0 hx2 hadj hmine y hy hyflag
        by_cases hxp : x = p
        · subst hxp
          exact absurd ⟨hadj, hmine⟩ hzero
        · rw [setRevealed_grid_ne b hxp, hx0] at hx2
          exact absurd hx2 (by simp)

theorem revealCell_complete (fuel : Nat) (b : Board) (p : Pos)
    (hfc : b.unrevealedCount ≤ fuel)
    (hp : (b.grid p).is_revealed = false) (hf : (b.grid p).is_flagged = false) :
    ∀ x, Relation.ReflTransGen (floodEdge b) p x →
      ((revealCell fuel b p).grid x).is_revealed = true := by
  intro x hx
  induction hx with
  | refl => exact revealCell_target fuel b p hfc hp hf
  | tail _hsteps hedge ihr =>
    obtain ⟨h1, _h2, h3, h4, h5, _h6, h7⟩ := hedge
    exact revealCell_closed fuel b p hfc _ h1 ihr h3 h4 _ h5 h7

/-! ## Claim C2: flood-reveal closure -/

/-- **C2, amended.**  Revealing an unrevealed, unflagged cell with zero
adjacent count that is not a mine reveals exactly the cells reachable
from it along chains of initially unrevealed, unflagged, zero-count
non-mine cells (the `floodEdge` closure, whose last step may end in any
unrevealed unflagged cell — the region's border); every cell outside
that closure is left entirely unchanged, and no cell's mine, flag or
count state changes at all.  Flagged or already-revealed cells block the
flood, so the literally stated claim (the full connected zero-count
region plus its numbered border is revealed) fails; see
`C2_flood_literal_cx`. -/
theorem C2_flood_closure (b : Board) (p : Pos)
    (hrev : (b.grid p).is_revealed = false) (hflag : (b.grid p).is_flagged = false)
    (_hadj : (b.grid p).adjacent_mines = 0) (_hmine : (b.grid p).is_mine = false) :
    (∀ q, ((b.reveal_cell p).grid q).is_revealed = true ↔
      ((b.grid q).is_revealed = true ∨ Relation.ReflTransGen (floodEdge b) p q))
    ∧ (∀ q, ¬ Relation.ReflTransGen (floodEdge b) p q → (b.reveal_cell p).grid q = b.grid q)
    ∧ (∀ q, ((b.reveal_cell p).grid q).is_mine = (b.grid q).is_mine ∧
        ((b.reveal_cell p).grid q).is_flagged = (b.grid q).is_flagged ∧
        ((b.reveal_cell p).grid q).adjacent_mines = (b.grid q).adjacent_mines) := by
  simp only [Board.reveal_cell]
  have hfuel : b.unrevealedCount ≤ GRID_SIZE * GRID_SIZE + 1 := by
    have := unrevealedCount_le b
    omega
  refine ⟨?_, ?_, ?_⟩
  · intro q
    constructor
    · intro hq
      rcases revealCell_sound _ b p q hq with h | ⟨_, _, h⟩
      · exact Or.inl h
      · exact Or.inr h
    · intro hq
      rcases hq with h | h
      · exact (revExt_revealCell _ b p).rev_mono h
      · exact revealCell_complete _ b p hfuel hrev hflag q h
  · intro q hq
    rcases revExt_revealCell (GRID_SIZE * GRID_SIZE + 1) b p q with e | e
    · exact e
    · cases hbq : (b.grid q).is_revealed
      · have hrq : ((revealCell (GRID_SIZE * GRID_SIZE + 1) b p).grid q).is_revealed = true := by
          rw [e]
          simp
        rcases revealCell_sound _ b p q hrq with h | ⟨_, _, h⟩
        · rw [hbq] at h
          exact absurd h (by simp)
        · exact absurd h hq
      · rw [e, setRev_eq_self hbq]
  · intro q
    exact ⟨(revExt_revealCell _ b p).mine_eq q, (revExt_revealCell _ b p).flag_eq q,
      (revExt_revealCell _ b p).adj_eq q⟩

/-- Witness for `C2_flood_closure` on a fresh board and the corner cell. -/
theorem C2_flood_closure_witness :
    ((freshBoard.grid cxP).is_revealed = false ∧ (freshBoard.grid cxP).is_flagged = false ∧
      (freshBoard.grid cxP).adjacent_mines = 0 ∧ (freshBoard.grid cxP).is_mine = false) ∧
    (∀ q, ((freshBoard.reveal_cell cxP).grid q).is_revealed = true ↔
      ((freshBoard.grid q).is_revealed = true ∨
        Relation.ReflTransGen (floodEdge freshBoard) cxP q)) :=
  ⟨⟨rfl, rfl, rfl, rfl⟩, (C2_flood_closure freshBoard cxP rfl rfl rfl rfl).1⟩

/-- **C2, counterexample to the literal claim.**  On `cx2B` the clicked
cell `(0,0)` satisfies the claim's preconditions, the cell `(0,1)` is a
zero-count non-mine cell adjacent to it (hence inside the connected
zero-count region containing the clicked cell), yet after `reveal_cell`
it is not revealed: the flag on `(0,1)` blocks the flood, so the
revealed set is not the full region plus its numbered border. -/
theorem C2_flood_literal_cx :
    ((cx2B.grid cxP).is_revealed = false ∧ (cx2B.grid cxP).is_flagged = false ∧
      (cx2B.grid cxP).adjacent_mines = 0 ∧ (cx2B.grid cxP).is_mine = false) ∧
    (cxQ ∈ nbrs cxP ∧ (cx2B.grid cxQ).adjacent_mines = 0 ∧ (cx2B.grid cxQ).is_mine = false) ∧
    ((cx2B.reveal_cell cxP).grid cxQ).is_revealed = false := by
  decide

/-! ## Claim C1: mine placement -/

theorem calculate_grid_mine (b : Board) (p : Pos) :
    ((b.calculate_all_adjacent_mines).grid p).is_mine = (b.grid p).is_mine := by
  simp only [Board.calculate_all_adjacent_mines]
  split
  · rfl
  · rfl

theorem setMines_grid_of_mem {b : Board} {mines : List Pos} {p : Pos} (h : p ∈ mines) :
    (b.setMines mines).grid p = { b.grid p with is_mine := true } := by
  simp [Board.setMines, h]

theorem setMines_grid_of_not_mem {b : Board} {mines : List Pos} {p : Pos} (h : p ∉ mines) :
    (b.setMines mines).grid p = b.grid p := by
  simp [Board.setMines, h]

theorem place_mines_mine_iff {b : Board} {mines : List Pos}
    (hfresh : ∀ p, (b.grid p).is_mine = false) (p : Pos) :
    ((b.place_mines mines).grid p).is_mine = true ↔ p ∈ mines := by
  rw [Board.place_mines, calculate_grid_mine]
  by_cases hp : p ∈ mines
  · rw [setMines_grid_of_mem hp]
    simp [hp]
  · rw [setMines_grid_of_not_mem hp]
    simp [hfresh p, hp]

/-- **C1.**  For a valid construction and any first-click seed, after
`place_mines` with a legal `random.sample` outcome (distinct cells, as
many as `num_mines`, all outside the edge-clipped 3x3 safe zone around
the click) on a mine-free board: exactly `num_mines` cells are mines,
no safe-zone cell is a mine, and every non-mine cell's cached
`adjacent_mines` equals a brute-force recount of the mines among its
edge-clipped 8 neighbors. -/
theorem C1_place_mines (b : Board) (click : Pos) (mines : List Pos)
    (hfresh : ∀ p, (b.grid p).is_mine = false)
    (hnodup : mines.Nodup)
    (hlen : mines.length = b.num_mines)
    (_hlo : 10 ≤ b.num_mines) (_hhi : b.num_mines ≤ 20)
    (hsafe : ∀ q ∈ mines, q ∉ safeZone click) :
    (b.place_mines mines).mineCount = b.num_mines
    ∧ (∀ q ∈ safeZone click, ((b.place_mines mines).grid q).is_mine = false)
    ∧ (∀ p, ((b.place_mines mines).grid p).is_mine = false →
        ((b.place_mines mines).grid p).adjacent_mines =
          (nbrs p).countP (fun q => ((b.place_mines mines).grid q).is_mine)) := by
  refine ⟨?_, ?_, ?_⟩
  · rw [Board.mineCount]
    have hset : (Finset.univ.filter (fun p : Pos => ((b.place_mines mines).grid p).is_mine = true))
        = mines.toFinset := by
      ext q
      simp [place_mines_mine_iff hfresh]
    rw [hset, List.toFinset_card_of_nodup hnodup, hlen]
  · intro q hq
    cases hm : ((b.place_mines mines).grid q).is_mine
    · rfl
    · exact absurd hq (hsafe q ((place_mines_mine_iff hfresh q).mp hm))
  · intro p hp
    have hpm : p ∉ mines := by
      intro hmem
      rw [(place_mines_mine_iff hfresh p).mpr hmem] at hp
      exact absurd hp (by simp)
    have hpm2 : ((b.setMines mines).grid p).is_mine = false := by
      rw [setMines_grid_of_not_mem hpm]
      exact hfresh p
    have hgrid : (b.place_mines mines).grid p
        = { (b.setMines mines).grid p with
            adjacent_mines := (b.setMines mines).count_adjacent_mines p } := by
      rw [Board.place_mines, Board.calculate_all_adjacent_mines]
      simp only [hpm2]
      simp
    rw [hgrid]
    show (b.setMines mines).count_adjacent_mines p = _
    rw [Board.count_adjacent_mines]
    refine List.countP_congr ?_
    intro q _
    rw [Board.place_mines, calculate_grid_mine]

/-- Witness for `C1_place_mines`: a fresh board, click at `(0,0)`, the
ten sampled mines of `wMines`. -/
theorem C1_place_mines_witness :
    (freshBoard.place_mines wMines).mineCount = freshBoard.num_mines
    ∧ (∀ q ∈ safeZone cxP, ((freshBoard.place_mines wMines).grid q).is_mine = false)
    ∧ (∀ p, ((freshBoard.place_mines wMines).grid p).is_mine = false →
        ((freshBoard.place_mines wMines).grid p).adjacent_mines =
          (nbrs p).countP (fun q => ((freshBoard.place_mines wMines).grid q).is_mine)) :=
  C1_place_mines freshBoard cxP wMines (fun _ => rfl) (by decide) (by decide)
    (by decide) (by decide) (by decide)

/-! ## Claim C3: win detection -/

/-- **C3.**  With `num_mines = 10` and exactly ten mine cells: once every
non-mine cell is revealed (the result of any loss-free revealing
sequence), running the per-frame `update` sets `win` and `game_over`;
with only 89 revealed non-mine cells `win` stays `false`; and while
`first_click` is still set (no reveal has happened yet) `update` performs
no win check at all and leaves the state unchanged. -/
theorem C3_win_detection (g : Game) :
    (g.game_over = false → g.first_click = false → g.num_mines = 10 →
      g.board.mineCount = 10 →
      (∀ p, (g.board.grid p).is_mine = false → (g.board.grid p).is_revealed = true) →
      ((g.update).win = true ∧ (g.update).game_over = true))
    ∧ (g.win = false → g.num_mines = 10 → g.board.revealedSafeCount = 89 →
        (g.update).win = false)
    ∧ (g.first_click = true → g.update = g) := by
  have huniv : (Finset.univ : Finset Pos).card = 100 := by decide
  refine ⟨?_, ?_, ?_⟩
  · intro hgo hfc hnm hmc hall
    have hcount : g.board.revealedSafeCount = 90 := by
      have hfilter : (Finset.univ.filter (fun p : Pos =>
          (g.board.grid p).is_revealed = true ∧ (g.board.grid p).is_mine = false))
          = (Finset.univ.filter (fun p : Pos => (g.board.grid p).is_mine = false)) := by
        ext q
        simp only [Finset.mem_filter, Finset.mem_univ, true_and]
        exact ⟨fun h => h.2, fun h => ⟨hall q h, h⟩⟩
      have hsplit := Finset.filter_card_add_filter_neg_card_eq_card
        (s := (Finset.univ : Finset Pos)) (p := fun p => (g.board.grid p).is_mine = true)
      simp only [Bool.not_eq_true] at hsplit
      rw [Board.mineCount] at hmc
      rw [Board.revealedSafeCount, hfilter]
      rw [huniv, hmc] at hsplit
      omega
    have hwin : (g.board.revealedSafeCount : Int)
        = (GRID_SIZE * GRID_SIZE : Int) - (g.num_mines : Int) := by
      rw [hcount, hnm]
      norm_num
    simp only [Game.update, if_pos (And.intro hgo hfc), Game.check_win_condition,
      if_pos hwin]
    exact ⟨trivial, trivial⟩
  · intro hwin hnm hcount
    simp only [Game.update]
    by_cases hgo : g.game_over = false ∧ g.first_click = false
    · rw [if_pos hgo]
      simp only [Game.check_win_condition]
      rw [if_neg ?_]
      · exact hwin
      · rw [hcount, hnm]
        norm_num
    · rw [if_neg hgo]
      exact hwin
  · intro hfc
    simp only [Game.update]
    rw [if_neg]
    intro h
    rw [hfc] at h
    exact absurd h.2 (by simp)

/-- Witness for `C3_win_detection` at the three concrete games. -/
theorem C3_win_detection_witness :
    (((wC3win.update).win = true ∧ (wC3win.update).game_over = true))
    ∧ ((wC3g89.update).win = false)
    ∧ (freshGame.update = freshGame) :=
  ⟨(C3_win_detection wC3win).1 rfl rfl rfl (by decide) (by decide),
   (C3_win_detection wC3g89).2.1 rfl rfl (by decide),
   (C3_win_detection freshGame).2.2 rfl⟩

/-! ## Claim C5: terminal states freeze the board -/

/-- **C5.**  Once `game_over` is set (by revealing a mine or by
winning), every subsequent solver tick, left click (reveal) and right
click (flag toggle) is a complete no-op — the game state, board
included, is unchanged — until `reset_game` replaces the board. -/
theorem C5_terminal_freeze (strat : Strategy) (g : Game) (p : Pos) (mines : List Pos)
    (h : g.game_over = true) :
    Game.aiTick strat g mines = g ∧ Game.leftClick strat g p mines = g
      ∧ Game.rightClick strat g p = g := by
  refine ⟨?_, ?_, ?_⟩ <;> simp [Game.aiTick, Game.leftClick, Game.rightClick, h]

/-- Witness for `C5_terminal_freeze` on a concrete lost game. -/
theorem C5_terminal_freeze_witness :
    wTerminalGame.game_over = true ∧
    (Game.aiTick idStrat wTerminalGame [] = wTerminalGame ∧
      Game.leftClick idStrat wTerminalGame cxP [] = wTerminalGame ∧
      Game.rightClick idStrat wTerminalGame cxP = wTerminalGame) :=
  ⟨rfl, C5_terminal_freeze idStrat wTerminalGame cxP [] rfl⟩

/-! ## Frame lemmas for the game handlers -/

theorem setFlagged_grid_same (b : Board) (p : Pos) (v : Bool) :
    (b.setFlagged p v).grid p = { b.grid p with is_flagged := v } := by
  simp [Board.setFlagged]

theorem setFlagged_grid_ne (b : Board) {p q : Pos} (h : q ≠ p) (v : Bool) :
    (b.setFlagged p v).grid q = b.grid q := by
  simp [Board.setFlagged, Function.update_noteq h]

theorem setFlagged_mine (b : Board) (p : Pos) (v : Bool) (q : Pos) :
    ((b.setFlagged p v).grid q).is_mine = (b.grid q).is_mine := by
  by_cases h : q = p
  · subst h
    rw [setFlagged_grid_same]
  · rw [setFlagged_grid_ne b h]

theorem setBorder_grid_same (b : Board) (p : Pos) (v : Bool) :
    (b.setBorder p v).grid p = { b.grid p with border := v } := by
  simp [Board.setBorder]

theorem setBorder_grid_ne (b : Board) {p q : Pos} (h : q ≠ p) (v : Bool) :
    (b.setBorder p v).grid q = b.grid q := by
  simp [Board.setBorder, Function.update_noteq h]

theorem setBorder_mine (b : Board) (p : Pos) (v : Bool) (q : Pos) :
    ((b.setBorder p v).grid q).is_mine = (b.grid q).is_mine := by
  by_cases h : q = p
  · subst h
    rw [setBorder_grid_same]
  · rw [setBorder_grid_ne b h]

theorem setBorder_rev (b : Board) (p : Pos) (v : Bool) (q : Pos) :
    ((b.setBorder p v).grid q).is_revealed = (b.grid q).is_revealed := by
  by_cases h : q = p
  · subst h
    rw [setBorder_grid_same]
  · rw [setBorder_grid_ne b h]

theorem setBorder_flag (b : Board) (p : Pos) (v : Bool) (q : Pos) :
    ((b.setBorder p v).grid q).is_flagged = (b.grid q).is_flagged := by
  by_cases h : q = p
  · subst h
    rw [setBorder_grid_same]
  · rw [setBorder_grid_ne b h]

theorem applyBorder_mine (b : Board) (p q : Pos) :
    ((applyBorder b p).grid q).is_mine = (b.grid q).is_mine := by
  rw [applyBorder]
  cases b.last_cell <;> simp [setBorder_mine]

theorem applyBorder_rev (b : Board) (p q : Pos) :
    ((applyBorder b p).grid q).is_revealed = (b.grid q).is_revealed := by
  rw [applyBorder]
  cases b.last_cell <;> simp [setBorder_rev]

theorem applyBorder_flag (b : Board) (p q : Pos) :
    ((applyBorder b p).grid q).is_flagged = (b.grid q).is_flagged := by
  rw [applyBorder]
  cases b.last_cell <;> simp [setBorder_flag]

theorem reveal_all_mines_mine (b : Board) (q : Pos) :
    ((b.reveal_all_mines).grid q).is_mine = (b.grid q).is_mine := by
  simp only [Board.reveal_all_mines]
  split <;> simp

theorem loseCheck_board_mine (g : Game) (p q : Pos) :
    ((Game.loseCheck g p).board.grid q).is_mine = (g.board.grid q).is_mine := by
  simp only [Game.loseCheck]
  split
  · exact reveal_all_mines_mine _ _
  · rfl

theorem loseCheck_first_click (g : Game) (p : Pos) :
    (Game.loseCheck g p).first_click = g.first_click := by
  simp only [Game.loseCheck]
  split <;> rfl

theorem uncover_easy_board_mine (b : Board) (pick : Pos) (isf : Bool) (q : Pos) :
    (((b.uncover_cell_easy pick isf).2).grid q).is_mine = (b.grid q).is_mine := by
  simp only [Board.uncover_cell_easy, wrapUncover]
  cases isf
  · simp only [Bool.false_eq_true, if_false, Board.reveal_cell]
    rw [(revExt_revealCell _ _ _).mine_eq, applyBorder_mine]
  · simp only [if_true]
    rw [applyBorder_mine]

theorem toggle_flag_board_mine (g : Game) (p q : Pos) :
    ((g.toggle_flag p).board.grid q).is_mine = (g.board.grid q).is_mine := by
  simp only [Game.toggle_flag]
  split_ifs <;> simp [setFlagged_mine]

theorem toggle_flag_first_click (g : Game) (p : Pos) :
    (g.toggle_flag p).first_click = g.first_click := by
  simp only [Game.toggle_flag]
  split_ifs <;> rfl

theorem rightClick_first_click (strat : Strategy) (g : Game) (p : Pos) :
    (Game.rightClick strat g p).first_click = g.first_click := by
  simp only [Game.rightClick]
  split_ifs
  · rfl
  · rfl
  · rw [loseCheck_first_click]
    exact toggle_flag_first_click g p

theorem rightClick_easy_mine (g : Game) (p q : Pos) :
    ((Game.rightClick easyStrat55 g p).board.grid q).is_mine = (g.board.grid q).is_mine := by
  simp only [Game.rightClick]
  split_ifs
  · rfl
  · rfl
  · rw [loseCheck_board_mine]
    show (((easyStrat55 false (g.toggle_flag p).board).2).grid q).is_mine = _
    rw [easyStrat55, uncover_easy_board_mine]
    exact toggle_flag_board_mine g p q

/-! ## Claim C4: a reveal can happen before mines are placed -/

/-- **C4 (code bug).**  From a fresh game, a single right-click flag
toggle as the very first action runs the solver follow-up
`self.board.uncover_cell()` with `is_first` defaulted to `False`, whose
wrapper reveals the picked cell although mines have not been placed:
after the click, `first_click` is still `true`, the board still has no
mines at all, yet the solver's pick `(5,5)` (a covered, unflagged cell,
hence a legal outcome of the easy retry loop) is revealed.  The claimed
invariant — no cell is ever revealed while mines are unplaced — is
violated by the code. -/
theorem rightClick_step (strat : Strategy) (g : Game) (p : Pos)
    (hgo : g.game_over = false) (hrev : (g.board.grid p).is_revealed = false) :
    Game.rightClick strat g p =
      Game.loseCheck { g.toggle_flag p with
          board := (strat false (g.toggle_flag p).board).2 }
        ((strat false (g.toggle_flag p).board).1) := by
  simp only [Game.rightClick]
  rw [if_neg (by simp [hgo]), if_neg (by simp [hrev])]

theorem loseCheck_of_not_mine (g : Game) (p : Pos)
    (h : (g.board.grid p).is_mine = false) : Game.loseCheck g p = g := by
  simp only [Game.loseCheck]
  rw [if_neg]
  intro hc
  rw [h] at hc
  exact absurd hc.1 (by simp)

/-- **C4 (code bug).**  From a fresh game, a single right-click flag
toggle as the very first action runs the solver follow-up
`self.board.uncover_cell()` with `is_first` defaulted to `False`, whose
wrapper reveals the picked cell although mines have not been placed:
after the click, `first_click` is still `true`, the board still has no
mines at all, yet the solver's pick `(5,5)` (a covered, unflagged cell,
hence a legal outcome of the easy retry loop) has been revealed.  The
claimed invariant — no cell is ever revealed while mines are unplaced —
is violated by the code. -/
theorem revExt_reveal_cell (b : Board) (p : Pos) : RevExt b (b.reveal_cell p) :=
  revExt_revealCell (GRID_SIZE * GRID_SIZE + 1) b p

theorem reveal_cell_target (b : Board) (p : Pos)
    (h1 : (b.grid p).is_revealed = false) (h2 : (b.grid p).is_flagged = false) :
    ((b.reveal_cell p).grid p).is_revealed = true :=
  revealCell_target (GRID_SIZE * GRID_SIZE + 1) b p
    (le_trans (unrevealedCount_le b) (by omega)) h1 h2

theorem rightClick_easy_reveals (g : Game) (p pick : Pos)
    (hgo : g.game_over = false) (hrev : (g.board.grid p).is_revealed = false)
    (hpr : ((g.toggle_flag p).board.grid pick).is_revealed = false)
    (hpf : ((g.toggle_flag p).board.grid pick).is_flagged = false)
    (hnm : ∀ q, ((g.toggle_flag p).board.grid q).is_mine = false) :
    ((Game.rightClick (fun isf b => b.uncover_cell_easy pick isf) g p).board.grid
      pick).is_revealed = true := by
  rw [rightClick_step (fun isf b => b.uncover_cell_easy pick isf) g p hgo hrev]
  simp only [Board.uncover_cell_easy, wrapUncover, Bool.false_eq_true, if_false]
  rw [loseCheck_of_not_mine]
  · exact reveal_cell_target _ _
      (by rw [applyBorder_rev]; exact hpr)
      (by rw [applyBorder_flag]; exact hpf)
  · rw [(revExt_reveal_cell _ _).mine_eq, applyBorder_mine]
    exact hnm pick

/-- **C4 (code bug).**  From a fresh game, a single right-click flag
toggle as the very first action runs the solver follow-up
`self.board.uncover_cell()` with `is_first` defaulted to `False`, whose
wrapper reveals the picked cell although mines have not been placed:
after the click, `first_click` is still `true`, the board still has no
mines at all, yet the solver's pick `(5,5)` (a covered, unflagged cell,
hence a legal outcome of the easy retry loop) has been revealed.  The
claimed invariant — no cell is ever revealed while mines are unplaced —
is violated by the code. -/
theorem C4_unplaced_reveal_bug :
    ((freshGame.toggle_flag cxP).board.grid c55).is_revealed = false
    ∧ ((freshGame.toggle_flag cxP).board.grid c55).is_flagged = false
    ∧ (Game.rightClick easyStrat55 freshGame cxP).first_click = true
    ∧ ((Game.rightClick easyStrat55 freshGame cxP).board.grid c55).is_revealed = true
    ∧ (∀ q, ((Game.rightClick easyStrat55 freshGame cxP).board.grid q).is_mine = false) := by
  have hstrat : easyStrat55 = fun isf b => b.uncover_cell_easy c55 isf := rfl
  refine ⟨by decide, by decide, ?_, ?_, ?_⟩
  · rw [rightClick_first_click]
    rfl
  · rw [hstrat]
    exact rightClick_easy_reveals freshGame cxP c55 rfl rfl (by decide) (by decide)
      (fun q => by rw [toggle_flag_board_mine]; rfl)
  · intro q
    rw [rightClick_easy_mine]
    rfl

/-! ## The medium strategy's deduction sets -/

theorem coveredNeighbors_spec {b : Board} {p q : Pos} (h : q ∈ b.coveredNeighbors p) :
    q ∈ nbrs p ∧ (b.grid q).is_revealed = false ∧ (b.grid q).is_flagged = false := by
  rw [Board.coveredNeighbors, List.mem_filter] at h
  refine ⟨h.1, ?_, ?_⟩
  · have h2 := h.2
    simp only [Bool.and_eq_true, Bool.not_eq_true'] at h2
    exact h2.1
  · have h2 := h.2
    simp only [Bool.and_eq_true, Bool.not_eq_true'] at h2
    exact h2.2

theorem mediumStep_fst (b : Board) (acc : Finset Pos × Finset Pos) (p : Pos) :
    (mediumStep b acc p).1 =
      if (b.grid p).is_revealed = true ∧ 0 < (b.grid p).adjacent_mines ∧
          (b.flaggedNeighbors p).length = (b.grid p).adjacent_mines then
        acc.1 ∪ (b.coveredNeighbors p).toFinset
      else acc.1 := by
  simp only [mediumStep]
  split_ifs with h1 h2 h3 <;> simp_all

theorem mediumStep_snd (b : Board) (acc : Finset Pos × Finset Pos) (p : Pos) :
    (mediumStep b acc p).2 =
      if (b.grid p).is_revealed = true ∧ 0 < (b.grid p).adjacent_mines ∧
          ((b.coveredNeighbors p).length : Int)
            = ((b.grid p).adjacent_mines : Int) - ((b.flaggedNeighbors p).length : Int) then
        acc.2 ∪ (b.coveredNeighbors p).toFinset
      else acc.2 := by
  simp only [mediumStep]
  split_ifs with h1 h2 h3 <;> simp_all

theorem mediumFold_fst (b : Board) :
    ∀ (l : List Pos) (acc : Finset Pos × Finset Pos) (q : Pos),
      (q ∈ (l.foldl (mediumStep b) acc).1 ↔ q ∈ acc.1 ∨ ∃ p ∈ l, condSafe b p q) := by
  intro l
  induction l with
  | nil =>
    intro acc q
    simp
  | cons a l ihl =>
    intro acc q
    rw [List.foldl_cons, ihl]
    constructor
    · rintro (hq | ⟨p, hp, hps⟩)
      · rw [mediumStep_fst] at hq
        split_ifs at hq with h
        · rcases Finset.mem_union.mp hq with h' | h'
          · exact Or.inl h'
          · exact Or.inr ⟨a, List.mem_cons_self a l,
              h.1, h.2.1, h.2.2, List.mem_toFinset.mp h'⟩
        · exact Or.inl hq
      · exact Or.inr ⟨p, List.mem_cons_of_mem a hp, hps⟩
    · rintro (hq | ⟨p, hp, hps⟩)
      · refine Or.inl ?_
        rw [mediumStep_fst]
        split_ifs with h
        · exact Finset.mem_union_left _ hq
        · exact hq
      · rcases List.mem_cons.mp hp with rfl | hp'
        · refine Or.inl ?_
          rw [mediumStep_fst]
          obtain ⟨h1, h2, h3, h4⟩ := hps
          rw [if_pos ⟨h1, h2, h3⟩]
          exact Finset.mem_union_right _ (List.mem_toFinset.mpr h4)
        · exact Or.inr ⟨p, hp', hps⟩

theorem mediumFold_snd (b : Board) :
    ∀ (l : List Pos) (acc : Finset Pos × Finset Pos) (q : Pos),
      (q ∈ (l.foldl (mediumStep b) acc).2 ↔ q ∈ acc.2 ∨ ∃ p ∈ l, condFlag b p q) := by
  intro l
  induction l with
  | nil =>
    intro acc q
    simp
  | cons a l ihl =>
    intro acc q
    rw [List.foldl_cons, ihl]
    constructor
    · rintro (hq | ⟨p, hp, hps⟩)
      · rw [mediumStep_snd] at hq
        split_ifs at hq with h
        · rcases Finset.mem_union.mp hq with h' | h'
          · exact Or.inl h'
          · exact Or.inr ⟨a, List.mem_cons_self a l,
              h.1, h.2.1, h.2.2, List.mem_toFinset.mp h'⟩
        · exact Or.inl hq
      · exact Or.inr ⟨p, List.mem_cons_of_mem a hp, hps⟩
    · rintro (hq | ⟨p, hp, hps⟩)
      · refine Or.inl ?_
        rw [mediumStep_snd]
        split_ifs with h
        · exact Finset.mem_union_left _ hq
        · exact hq
      · rcases List.mem_cons.mp hp with rfl | hp'
        · refine Or.inl ?_
          rw [mediumStep_snd]
          obtain ⟨h1, h2, h3, h4⟩ := hps
          rw [if_pos ⟨h1, h2, h3⟩]
          exact Finset.mem_union_right _ (List.mem_toFinset.mpr h4)
        · exact Or.inr ⟨p, hp', hps⟩

theorem mem_mediumSafe (b : Board) (q : Pos) :
    q ∈ (b.mediumSets).1 ↔ ∃ p, condSafe b p q := by
  rw [Board.mediumSets, mediumFold_fst]
  simp [mem_allPosList]

theorem mem_mediumFlag (b : Board) (q : Pos) :
    q ∈ (b.mediumSets).2 ↔ ∃ p, condFlag b p q := by
  rw [Board.mediumSets, mediumFold_snd]
  simp [mem_allPosList]

/-! ## Claim C6: revealed/flagged mutual exclusion -/

theorem revealCell_flag_frame : ∀ (fuel : Nat) (b : Board) (p q : Pos),
    (b.grid q).is_flagged = true → (revealCell fuel b p).grid q = b.grid q := by
  intro fuel
  induction fuel with
  | zero =>
    intro b p q _
    rfl
  | succ fuel ihf =>
    intro b p q hq
    simp only [revealCell]
    by_cases hguard : (b.grid p).is_revealed = true ∨ (b.grid p).is_flagged = true
    · rw [if_pos hguard]
    · rw [if_neg hguard]
      simp only [not_or, Bool.not_eq_true] at hguard
      have hqp : q ≠ p := by
        intro e
        rw [e, hguard.2] at hq
        exact absurd hq (by simp)
      have hset : (b.setRevealed p).grid q = b.grid q := setRevealed_grid_ne b hqp
      by_cases hzero : (b.grid p).adjacent_mines = 0 ∧ (b.grid p).is_mine = false
      · rw [if_pos hzero]
        have hfold : ∀ (l : List Pos) (bb : Board), (bb.grid q).is_flagged = true →
            ((l.foldl (revealCell fuel) bb).grid q) = bb.grid q := by
          intro l
          induction l with
          | nil =>
            intro bb _
            rfl
          | cons a l ihl =>
            intro bb hbb
            rw [List.foldl_cons]
            rw [ihl (revealCell fuel bb a) (by rw [ihf bb a q hbb]; exact hbb)]
            exact ihf bb a q hbb
        rw [hfold (nbrs p) (b.setRevealed p) (by rw [hset]; exact hq), hset]
      · rw [if_neg hzero]
        exact hset

theorem reveal_cell_flag_frame (b : Board) (p q : Pos)
    (h : (b.grid q).is_flagged = true) : (b.reveal_cell p).grid q = b.grid q :=
  revealCell_flag_frame (GRID_SIZE * GRID_SIZE + 1) b p q h

theorem mutexInv_reveal_cell (b : Board) (p : Pos) (hb : MutexInv b) :
    MutexInv (b.reveal_cell p) := by
  intro x hx
  obtain ⟨h1, h2⟩ := hx
  have hfl : (b.grid x).is_flagged = true := by
    rw [← (revExt_reveal_cell b p).flag_eq x]
    exact h2
  rw [reveal_cell_flag_frame b p x hfl] at h1
  exact hb x ⟨h1, hfl⟩

theorem mutexInv_applyBorder (b : Board) (p : Pos) (hb : MutexInv b) :
    MutexInv (applyBorder b p) := by
  intro x hx
  obtain ⟨h1, h2⟩ := hx
  rw [applyBorder_rev] at h1
  rw [applyBorder_flag] at h2
  exact hb x ⟨h1, h2⟩

theorem mutexInv_setFlagged_true (b : Board) (p : Pos)
    (hp : (b.grid p).is_revealed = false) (hb : MutexInv b) :
    MutexInv (b.setFlagged p true) := by
  intro x hx
  obtain ⟨h1, h2⟩ := hx
  by_cases hxp : x = p
  · rw [hxp, setFlagged_grid_same] at h1
    rw [show ({ b.grid p with is_flagged := true } : Cell).is_revealed
      = (b.grid p).is_revealed from rfl, hp] at h1
    exact absurd h1 (by simp)
  · rw [setFlagged_grid_ne b hxp] at h1 h2
    exact hb x ⟨h1, h2⟩

theorem mutexInv_setFlagged_false (b : Board) (p : Pos) (hb : MutexInv b) :
    MutexInv (b.setFlagged p false) := by
  intro x hx
  obtain ⟨h1, h2⟩ := hx
  by_cases hxp : x = p
  · rw [hxp, setFlagged_grid_same] at h2
    exact absurd h2 (by simp)
  · rw [setFlagged_grid_ne b hxp] at h1 h2
    exact hb x ⟨h1, h2⟩

theorem mutexInv_toggle_flag (g : Game) (p : Pos) (hb : MutexInv g.board) :
    MutexInv ((g.toggle_flag p).board) := by
  simp only [Game.toggle_flag]
  split_ifs with h1 h2 h3
  · exact hb
  · refine mutexInv_setFlagged_true g.board p ?_ hb
    cases hrev : (g.board.grid p).is_revealed
    · rfl
    · exact absurd hrev h1
  · exact mutexInv_setFlagged_false g.board p hb
  · exact hb

theorem mutexInv_wrapUncover (inner : Board → Pos × Board) (is_first : Bool) (b : Board)
    (hinner : MutexInv (inner b).2) :
    MutexInv ((wrapUncover inner is_first b).2) := by
  cases is_first
  · show MutexInv ((applyBorder (inner b).2 (inner b).1).reveal_cell (inner b).1)
    exact mutexInv_reveal_cell _ _ (mutexInv_applyBorder _ _ hinner)
  · show MutexInv (applyBorder (inner b).2 (inner b).1)
    exact mutexInv_applyBorder _ _ hinner

/-- **C6, amended.**  The mutual exclusion "no cell is both revealed and
flagged" is preserved by the flood reveal, by the right-click flag
toggle, and by all three solver invocations (including the medium
strategy's direct flagging of a covered cell); `reveal_all_mines`,
however, preserves it only when no mine is flagged — on loss it reveals
every mine without clearing flags, so a flagged mine ends up both
revealed and flagged (see `C6_mutex_cx`). -/
theorem C6_mutex (b : Board) (g : Game) (p cF cS cE : Pos) (is_first : Bool)
    (hcF : (b.mediumSets).2.Nonempty → cF ∈ (b.mediumSets).2)
    (hb : MutexInv b) (hg : MutexInv g.board) :
    MutexInv (b.reveal_cell p)
    ∧ MutexInv ((g.toggle_flag p).board)
    ∧ MutexInv ((b.uncover_cell_easy p is_first).2)
    ∧ MutexInv ((b.uncover_cell_medium cF cS cE is_first).2)
    ∧ MutexInv ((b.uncover_cell_hard p is_first).2)
    ∧ ((∀ q, (b.grid q).is_mine = true → (b.grid q).is_flagged = false) →
        MutexInv (b.reveal_all_mines)) := by
  refine ⟨mutexInv_reveal_cell b p hb, mutexInv_toggle_flag g p hg, ?_, ?_, ?_, ?_⟩
  · exact mutexInv_wrapUncover _ is_first b hb
  · apply mutexInv_wrapUncover
    show MutexInv ((if (b.mediumSets).2.Nonempty then (cF, b.setFlagged cF true)
      else if (b.mediumSets).1.Nonempty then (cS, b)
      else b.uncover_cell_easy cE true).2)
    by_cases hne : (b.mediumSets).2.Nonempty
    · rw [if_pos hne]
      have hcov : (b.grid cF).is_revealed = false := by
        rcases (mem_mediumFlag b cF).mp (hcF hne) with ⟨pp, -, -, -, hmem⟩
        exact (coveredNeighbors_spec hmem).2.1
      exact mutexInv_setFlagged_true b cF hcov hb
    · rw [if_neg hne]
      by_cases hs : (b.mediumSets).1.Nonempty
      · rw [if_pos hs]
        exact hb
      · rw [if_neg hs]
        exact mutexInv_wrapUncover _ true b hb
  · exact mutexInv_wrapUncover _ is_first b hb
  · intro hnf x hx
    obtain ⟨h1, h2⟩ := hx
    by_cases hm : (b.grid x).is_mine = true
    · have hfl : ((b.reveal_all_mines).grid x).is_flagged = (b.grid x).is_flagged := by
        simp only [Board.reveal_all_mines]
        rw [if_pos hm]
        rfl
      rw [hfl, hnf x hm] at h2
      exact absurd h2 (by simp)
    · have heq : (b.reveal_all_mines).grid x = b.grid x := by
        simp only [Board.reveal_all_mines]
        rw [if_neg hm]
      rw [heq] at h1 h2
      exact hb x ⟨h1, h2⟩

/-- **C6, counterexample.**  On a reachable end position with a flagged
mine, `reveal_all_mines` (the loss step) reveals that mine without
clearing the flag: the resulting board violates the claimed mutual
exclusion. -/
theorem C6_mutex_cx :
    MutexInv cx6B
    ∧ (cx6B.grid cx6P).is_mine = true ∧ (cx6B.grid cx6P).is_flagged = true
    ∧ ((cx6B.reveal_all_mines).grid cx6P).is_revealed = true
    ∧ ((cx6B.reveal_all_mines).grid cx6P).is_flagged = true
    ∧ ¬ MutexInv (cx6B.reveal_all_mines) := by
  refine ⟨by unfold MutexInv; decide, by decide, by decide, by decide, by decide, ?_⟩
  intro h
  exact h cx6P ⟨by decide, by decide⟩

/-- Witness for `C6_mutex` on concrete boards: `cx2B` (whose medium flag
set is non-empty and contains `(9,0)`) and the fresh game. -/
theorem C6_mutex_witness :
    MutexInv (cx2B.reveal_cell cxP)
    ∧ MutexInv ((freshGame.toggle_flag cxP).board)
    ∧ MutexInv ((cx2B.uncover_cell_easy cxP true).2)
    ∧ MutexInv ((cx2B.uncover_cell_medium cx6P cxP cxP true).2)
    ∧ MutexInv ((cx2B.uncover_cell_hard cxP true).2)
    ∧ ((∀ q, (cx2B.grid q).is_mine = true → (cx2B.grid q).is_flagged = false) →
        MutexInv (cx2B.reveal_all_mines)) :=
  C6_mutex cx2B freshGame cxP cx6P cxP cxP true (fun _ => by decide)
    (by unfold MutexInv; decide) (by unfold MutexInv; decide)

/-! ## Claim C7: the flag budget -/

theorem flaggedCount_setFlagged_true (b : Board) (p : Pos)
    (h : (b.grid p).is_flagged = false) :
    (b.setFlagged p true).flaggedCount = b.flaggedCount + 1 := by
  rw [Board.flaggedCount, Board.flaggedCount]
  have hset : (Finset.univ.filter
        (fun q : Pos => ((b.setFlagged p true).grid q).is_flagged = true))
      = insert p (Finset.univ.filter (fun q : Pos => (b.grid q).is_flagged = true)) := by
    ext q
    by_cases hq : q = p
    · simp [Finset.mem_filter, hq, setFlagged_grid_same]
    · simp [Finset.mem_filter, hq, setFlagged_grid_ne b hq]
  have hmem : p ∉ Finset.univ.filter (fun q : Pos => (b.grid q).is_flagged = true) := by
    simp [h]
  rw [hset, Finset.card_insert_of_not_mem hmem]

theorem flaggedCount_setFlagged_false (b : Board) (p : Pos)
    (h : (b.grid p).is_flagged = true) :
    (b.setFlagged p false).flaggedCount + 1 = b.flaggedCount := by
  rw [Board.flaggedCount, Board.flaggedCount]
  have hset : (Finset.univ.filter (fun q : Pos => (b.grid q).is_flagged = true))
      = insert p (Finset.univ.filter
          (fun q : Pos => ((b.setFlagged p false).grid q).is_flagged = true)) := by
    ext q
    by_cases hq : q = p
    · simp [Finset.mem_filter, hq, h]
    · simp [Finset.mem_filter, hq, setFlagged_grid_ne b hq]
  have hmem : p ∉ Finset.univ.filter
      (fun q : Pos => ((b.setFlagged p false).grid q).is_flagged = true) := by
    simp [setFlagged_grid_same]
  rw [hset, Finset.card_insert_of_not_mem hmem]

/-- **C7, amended.**  The right-click flag toggle keeps `flags_placed`
within the budget: it never raises it above `num_mines`, at the cap a
flag attempt on an unflagged covered cell is a no-op, and the toggle
keeps the on-board flagged-cell count in sync with the counter.  The
claim as stated is false for solver-placed flags: the medium strategy
flags its pick without consulting or incrementing the budget, so the
flagged-cell count can exceed `mine_count` (see `C7_flag_budget_cx`). -/
theorem C7_flag_budget (g : Game) (p : Pos) :
    (g.flags_placed ≤ (g.num_mines : Int) →
      (g.toggle_flag p).flags_placed ≤ (g.num_mines : Int))
    ∧ (g.flags_placed = (g.num_mines : Int) → (g.board.grid p).is_flagged = false →
        g.toggle_flag p = g)
    ∧ ((g.board.flaggedCount : Int) = g.flags_placed →
        ((g.toggle_flag p).board.flaggedCount : Int) = (g.toggle_flag p).flags_placed) := by
  simp only [Game.toggle_flag]
  split_ifs with h1 h2 h3
  · exact ⟨fun h => h, fun _ _ => rfl, fun h => h⟩
  · refine ⟨?_, ?_, ?_⟩
    · intro _
      show g.flags_placed + 1 ≤ (g.num_mines : Int)
      have := h2.2
      omega
    · intro he _
      exfalso
      have := h2.2
      omega
    · intro hs
      show ((g.board.setFlagged p true).flaggedCount : Int) = g.flags_placed + 1
      rw [flaggedCount_setFlagged_true g.board p h2.1]
      push_cast
      omega
  · refine ⟨?_, ?_, ?_⟩
    · intro h
      show g.flags_placed - 1 ≤ (g.num_mines : Int)
      omega
    · intro _ hff
      rw [hff] at h3
      exact absurd h3 (by simp)
    · intro hs
      show ((g.board.setFlagged p false).flaggedCount : Int) = g.flags_placed - 1
      have hc := flaggedCount_setFlagged_false g.board p h3
      have hc2 : ((g.board.setFlagged p false).flaggedCount : Int) + 1
          = (g.board.flaggedCount : Int) := by
        exact_mod_cast hc
      omega
  · exact ⟨fun h => h, fun _ _ => rfl, fun h => h⟩

/-- Witness for `C7_flag_budget` on the capped game `wC7g`. -/
theorem C7_flag_budget_witness :
    ((wC7g.toggle_flag cxP).flags_placed ≤ (wC7g.num_mines : Int))
    ∧ wC7g.toggle_flag cxP = wC7g
    ∧ ((wC7g.toggle_flag cxP).board.flaggedCount : Int)
        = (wC7g.toggle_flag cxP).flags_placed :=
  ⟨(C7_flag_budget wC7g cxP).1 (by decide),
   (C7_flag_budget wC7g cxP).2.1 (by decide) (by decide),
   (C7_flag_budget wC7g cxP).2.2 (by decide)⟩

/-- **C7, counterexample.**  With the budget of ten flags exhausted, the
medium solver still deduces `(1,1)` as a mine (it is in the flag set)
and flags it directly: the board ends up with eleven flagged cells, so
the flagged-cell count exceeds `mine_count` and the eleventh flag
attempt was not a no-op. -/
theorem C7_flag_budget_cx :
    cx7B.num_mines = 10
    ∧ cx7B.flaggedCount = 10
    ∧ cx7Pick ∈ (cx7B.mediumSets).2
    ∧ ((cx7B.uncover_cell_medium cx7Pick cxP cxP false).2).flaggedCount = 11 := by
  refine ⟨rfl, by decide, by decide, by decide⟩

/-! ## Claim C8: strategies and where the action is applied -/

/-- **C8, counterexample.**  Invoking the (wrapped) easy strategy with
`is_first=False` — as every non-first solver call does — reveals the
picked cell during the invocation itself: the pick `(3,3)` is covered
before and revealed after, so the strategy invocation does mutate
`is_revealed`, contradicting the claim that strategies never mutate
board state and the caller applies the action. -/
theorem C8_solver_mutation_cx :
    (cx8B.grid c33).is_revealed = false
    ∧ (cx8B.grid c33).is_flagged = false
    ∧ (((cx8B.uncover_cell_easy c33 false).2).grid c33).is_revealed = true := by
  decide

/-- **C8, amended.**  Every strategy invocation returns exactly one
chosen cell (the first component), and with `is_first=True` the easy and
hard invocations change no cell's `is_revealed` or `is_flagged` (only
the highlight border); but the invocation itself applies the action
rather than the caller: with `is_first=False` the wrapper reveals the
picked cell (flood included), and the medium flag branch flags its pick
inside the strategy even with `is_first=True`. -/
theorem C8_solver_contract (b : Board) (pick cF cS cE : Pos)
    (hcF : (b.mediumSets).2.Nonempty → cF ∈ (b.mediumSets).2) :
    ((b.uncover_cell_easy pick true).1 = pick
      ∧ (∀ q, (((b.uncover_cell_easy pick true).2).grid q).is_revealed = (b.grid q).is_revealed
          ∧ (((b.uncover_cell_easy pick true).2).grid q).is_flagged = (b.grid q).is_flagged))
    ∧ ((b.uncover_cell_hard pick true).1 = pick
      ∧ (∀ q, (((b.uncover_cell_hard pick true).2).grid q).is_revealed = (b.grid q).is_revealed
          ∧ (((b.uncover_cell_hard pick true).2).grid q).is_flagged = (b.grid q).is_flagged))
    ∧ ((b.uncover_cell_easy pick false).1 = pick
      ∧ (b.uncover_cell_easy pick false).2 = (applyBorder b pick).reveal_cell pick)
    ∧ ((b.mediumSets).2.Nonempty →
        (b.uncover_cell_medium cF cS cE true).1 = cF
        ∧ (b.grid cF).is_flagged = false
        ∧ (((b.uncover_cell_medium cF cS cE true).2).grid cF).is_flagged = true) := by
  refine ⟨⟨rfl, ?_⟩, ⟨rfl, ?_⟩, ⟨rfl, rfl⟩, ?_⟩
  · intro q
    show ((applyBorder b pick).grid q).is_revealed = _
      ∧ ((applyBorder b pick).grid q).is_flagged = _
    exact ⟨applyBorder_rev b pick q, applyBorder_flag b pick q⟩
  · intro q
    show ((applyBorder b pick).grid q).is_revealed = _
      ∧ ((applyBorder b pick).grid q).is_flagged = _
    exact ⟨applyBorder_rev b pick q, applyBorder_flag b pick q⟩
  · intro hne
    have hall : b.uncover_cell_medium cF cS cE true
        = (cF, applyBorder (b.setFlagged cF true) cF) := by
      simp only [Board.uncover_cell_medium, wrapUncover]
      rw [if_pos hne]
      simp
    have hcov : (b.grid cF).is_flagged = false := by
      rcases (mem_mediumFlag b cF).mp (hcF hne) with ⟨pp, -, -, -, hmem⟩
      exact (coveredNeighbors_spec hmem).2.2
    refine ⟨by rw [hall], hcov, ?_⟩
    rw [hall]
    show ((applyBorder (b.setFlagged cF true) cF).grid cF).is_flagged = true
    rw [applyBorder_flag, setFlagged_grid_same]

/-- Witness for `C8_solver_contract` on `cx7B` (non-empty flag set). -/
theorem C8_solver_contract_witness :
    ((cx7B.uncover_cell_easy cxP true).1 = cxP
      ∧ (∀ q, (((cx7B.uncover_cell_easy cxP true).2).grid q).is_revealed
            = (cx7B.grid q).is_revealed
          ∧ (((cx7B.uncover_cell_easy cxP true).2).grid q).is_flagged
            = (cx7B.grid q).is_flagged))
    ∧ ((cx7B.uncover_cell_easy cxP false).2 = (applyBorder cx7B cxP).reveal_cell cxP)
    ∧ ((cx7B.uncover_cell_medium cx7Pick cx6P cxP true).1 = cx7Pick
        ∧ (cx7B.grid cx7Pick).is_flagged = false
        ∧ (((cx7B.uncover_cell_medium cx7Pick cx6P cxP true).2).grid cx7Pick).is_flagged
            = true) := by
  have h := C8_solver_contract cx7B cxP cx7Pick cx6P cxP (fun _ => by decide)
  exact ⟨h.1, h.2.2.1.2, h.2.2.2 (by decide)⟩

/-! ## Claim C9: the medium strategy's deduction and resolution order -/

/-- **C9.**  The medium strategy's single pass puts a cell `q` into the
safe set exactly when some revealed cell with positive adjacent count
has `q` among its covered neighbors and its flagged-neighbor count
equals its adjacent count, and into the flag set exactly when the
covered-neighbor count equals the adjacent count minus the
flagged-neighbor count (integer subtraction); the pick is resolved flag
set first (action flag — the pick really is flagged), then safe set
(action reveal), then the easy fallback (action reveal), the pick taken
from the corresponding set. -/
theorem C9_medium_strategy (b : Board) (cF cS cE : Pos) (is_first : Bool)
    (hcF : (b.mediumSets).2.Nonempty → cF ∈ (b.mediumSets).2)
    (hcS : (b.mediumSets).1.Nonempty → cS ∈ (b.mediumSets).1) :
    (∀ q, q ∈ (b.mediumSets).1 ↔ ∃ p, condSafe b p q)
    ∧ (∀ q, q ∈ (b.mediumSets).2 ↔ ∃ p, condFlag b p q)
    ∧ (b.uncover_cell_medium cF cS cE is_first).1 = (b.mediumChoice cF cS cE).1
    ∧ ((b.mediumSets).2.Nonempty →
        b.mediumChoice cF cS cE = (cF, SolverAct.flag)
        ∧ (b.uncover_cell_medium cF cS cE is_first).1 ∈ (b.mediumSets).2
        ∧ (((b.uncover_cell_medium cF cS cE is_first).2).grid cF).is_flagged = true)
    ∧ (¬(b.mediumSets).2.Nonempty → (b.mediumSets).1.Nonempty →
        b.mediumChoice cF cS cE = (cS, SolverAct.reveal)
        ∧ (b.uncover_cell_medium cF cS cE is_first).1 ∈ (b.mediumSets).1)
    ∧ (¬(b.mediumSets).2.Nonempty → ¬(b.mediumSets).1.Nonempty →
        b.mediumChoice cF cS cE = (cE, SolverAct.reveal)) := by
  have hpick : (b.uncover_cell_medium cF cS cE is_first).1 = (b.mediumChoice cF cS cE).1 := by
    simp only [Board.uncover_cell_medium, wrapUncover, Board.mediumChoice,
      Board.uncover_cell_easy]
    by_cases hne : (b.mediumSets).2.Nonempty
    · rw [if_pos hne, if_pos hne]
    · rw [if_neg hne, if_neg hne]
      by_cases hs : (b.mediumSets).1.Nonempty
      · rw [if_pos hs, if_pos hs]
      · rw [if_neg hs, if_neg hs]
  refine ⟨mem_mediumSafe b, mem_mediumFlag b, hpick, ?_, ?_, ?_⟩
  · intro hne
    have hchoice : b.mediumChoice cF cS cE = (cF, SolverAct.flag) := by
      rw [Board.mediumChoice, if_pos hne]
    have hmed : b.uncover_cell_medium cF cS cE is_first
        = (cF, if is_first = true then applyBorder (b.setFlagged cF true) cF
               else (applyBorder (b.setFlagged cF true) cF).reveal_cell cF) := by
      simp only [Board.uncover_cell_medium, wrapUncover]
      rw [if_pos hne]
    have hflagged : ((applyBorder (b.setFlagged cF true) cF).grid cF).is_flagged = true := by
      rw [applyBorder_flag, setFlagged_grid_same]
    refine ⟨hchoice, ?_, ?_⟩
    · rw [hpick, hchoice]
      exact hcF hne
    · rw [hmed]
      cases is_first
      · show (((applyBorder (b.setFlagged cF true) cF).reveal_cell cF).grid cF).is_flagged
          = true
        rw [reveal_cell_flag_frame _ _ _ hflagged]
        exact hflagged
      · exact hflagged
  · intro hne hs
    have hchoice : b.mediumChoice cF cS cE = (cS, SolverAct.reveal) := by
      rw [Board.mediumChoice, if_neg hne, if_pos hs]
    refine ⟨hchoice, ?_⟩
    rw [hpick, hchoice]
    exact hcS hs
  · intro hne hs
    rw [Board.mediumChoice, if_neg hne, if_neg hs]

/-- Witness for `C9_medium_strategy` on `cx7B`, whose flag set contains
`(1,1)` and whose safe set contains `(9,0)`. -/
theorem C9_medium_strategy_witness :
    (cx7Pick ∈ (cx7B.mediumSets).2 ↔ ∃ p, condFlag cx7B p cx7Pick)
    ∧ cx7B.mediumChoice cx7Pick cx6P cxP = (cx7Pick, SolverAct.flag)
    ∧ (cx7B.uncover_cell_medium cx7Pick cx6P cxP false).1 ∈ (cx7B.mediumSets).2
    ∧ (((cx7B.uncover_cell_medium cx7Pick cx6P cxP false).2).grid cx7Pick).is_flagged
        = true := by
  have h := C9_medium_strategy cx7B cx7Pick cx6P cxP false
    (fun _ => by decide) (fun _ => by decide)
  have h4 := h.2.2.2.1 (by decide)
  exact ⟨h.2.1 cx7Pick, h4.1, h4.2.1, h4.2.2⟩

/-! ## Claim C10: out-of-bounds coordinates -/

theorem pyIndex_none (i : Int) (h : ¬(-(GRID_SIZE : Int) ≤ i ∧ i < (GRID_SIZE : Int))) :
    pyIndex i = none := by
  rw [pyIndex, dif_neg (by omega), dif_neg (by omega)]

/-- **C10, amended.**  `reveal_cell(row, col)` raises an `IndexError`
(modelled as `none`) exactly when a coordinate falls outside
`[-GRID_SIZE, GRID_SIZE)`; but a negative coordinate in
`[-GRID_SIZE, -1]` is resolved by Python's negative list indexing, so
the call silently succeeds and operates on the wrapped-around cell
instead of failing loudly (see `C10_oob_cx`). -/
theorem C10_oob (b : Board) (row col : Int) :
    (¬((-(GRID_SIZE : Int) ≤ row ∧ row < (GRID_SIZE : Int))
        ∧ (-(GRID_SIZE : Int) ≤ col ∧ col < (GRID_SIZE : Int))) →
      b.reveal_cell_py row col = none)
    ∧ (∀ r c, pyIndex row = some r → pyIndex col = some c →
        (b.grid (r, c)).is_revealed = false → (b.grid (r, c)).is_flagged = false →
        ∃ b2, b.reveal_cell_py row col = some b2
          ∧ ((b2.grid (r, c)).is_revealed = true)) := by
  constructor
  · intro h
    rcases not_and_or.mp h with h' | h'
    · have hrow := pyIndex_none row h'
      simp only [Board.reveal_cell_py, hrow]
    · have hcol := pyIndex_none col h'
      simp only [Board.reveal_cell_py, hcol]
      cases pyIndex row <;> rfl
  · intro r c hr hc hrev hflag
    simp only [Board.reveal_cell_py, hr, hc]
    rw [if_neg (by simp [hrev, hflag])]
    refine ⟨_, rfl, ?_⟩
    split_ifs with hz
    · have hb1 : ((b.setRevealed (r, c)).grid (r, c)).is_revealed = true := by
        simp
      exact (revExt_foldl (fun bb q => revExt_revealCell (GRID_SIZE * GRID_SIZE) bb q)
        (nbrsInt row col) (b.setRevealed (r, c))).rev_mono hb1
    · simp

/-- Witness for `C10_oob`: row 10 errors out on a fresh board; row −1
silently reveals `(9,0)`. -/
theorem C10_oob_witness :
    (freshBoard.reveal_cell_py 10 0 = none)
    ∧ (∃ b2, freshBoard.reveal_cell_py (-1) 0 = some b2
        ∧ ((b2.grid (((9 : Fin GRID_SIZE), (0 : Fin GRID_SIZE)) : Pos)).is_revealed = true)) :=
  ⟨(C10_oob freshBoard 10 0).1 (by decide),
   (C10_oob freshBoard (-1) 0).2 9 0 (by decide) (by decide) rfl rfl⟩

/-- **C10, counterexample.**  `reveal_cell(-1, 0)` — both coordinates
outside `[0, GRID_SIZE)` is not required; `row = -1` already is — does
not fail: Python's negative indexing resolves `grid[-1]` to the last
row, and the cell `(9,0)` is silently revealed. -/
theorem C10_oob_cx :
    ((-1 : Int) < 0)
    ∧ (cx10B.grid p90).is_revealed = false
    ∧ (cx10B.reveal_cell_py (-1) 0).isSome = true
    ∧ ((cx10B.reveal_cell_py (-1) 0).map (fun b2 => (b2.grid p90).is_revealed))
        = some true := by
  decide

end Minesweeper
